import Mathlib

/-!
Verification of the growth-automaton core of the website renderer.

The definitions below are shallow embeddings of the TypeScript / WGSL
sources:
* `src/canvas-renderer.ts` (class `CanvasRenderer`),
* `src/simulation/canvas-growth-simulation.ts` (class `CanvasGrowthSimulation`),
* `src/shaders/render-pixels.wgsl`,
* the WebGPU backend `GrowthSimulation` and its compute shader `growth.wgsl`.

JavaScript 32-bit unsigned arithmetic (`>>> 0`, `Math.imul` followed by
`>>> 0`) and WGSL `u32` arithmetic are both modelled as natural-number
arithmetic reduced mod 2^32.  `Uint32Array` / `storage` buffers are
modelled as total functions `ℕ → ℕ` that are `0` at unwritten indices
(typed arrays are zero-initialised).  JavaScript `Math.random()` results
are passed in explicitly as a stream of rationals in `[0,1)`.
-/

set_option maxRecDepth 8000

namespace Website

/-- Reduction mod 2^32, the effect of JavaScript `>>> 0` on a nonnegative
integer and of WGSL `u32` wrap-around. -/
def wrap32 (n : ℕ) : ℕ := n % 4294967296

/-! ### Deterministic hash (`CanvasRenderer.hash`, `hash` in render-pixels.wgsl) -/

/-- Integer part of `CanvasRenderer.hash` from `src/canvas-renderer.ts`:
`n = (px*127 + py*311 + 7919) >>> 0`, `h = Math.imul(n, 0xcc9e2d51) >>> 0`,
`h2 = (h ^ (h >>> 15)) & 0xFFFF`. -/
def hashH2 (px py : ℕ) : ℕ :=
  let n := wrap32 (px * 127 + py * 311 + 7919)
  let h := wrap32 (n * 0xcc9e2d51)
  (h ^^^ (h >>> 15)) &&& 0xFFFF

/-- `CanvasRenderer.hash`: the value `h2 / 65535` returned to the caller. -/
def hash (px py : ℕ) : ℚ := (hashH2 px py : ℚ) / 65535

/-- Integer part of `hash` from `src/shaders/render-pixels.wgsl`, with every
`u32` operation wrapping individually. -/
def wgslHashH2 (px py : ℕ) : ℕ :=
  let n := wrap32 (wrap32 (wrap32 (px * 127) + wrap32 (py * 311)) + 7919)
  let h := wrap32 (n * 0xcc9e2d51)
  (h ^^^ (h >>> 15)) &&& 0xFFFF

/-- `hash` from `src/shaders/render-pixels.wgsl`. -/
def wgslHash (px py : ℕ) : ℚ := (wgslHashH2 px py : ℚ) / 65535

/-- Reference construction of the hash, following the words of the spec and
of claim C3: `n = (x*127 + y*311 + 7919) mod 2^32`,
`h = (n * 0xcc9e2d51) mod 2^32`, `h2 = (h XOR (h >> 15)) AND 0xFFFF`,
`result = h2 / 65535`. -/
def hashRef (x y : ℕ) : ℚ :=
  let n := (x * 127 + y * 311 + 7919) % 2 ^ 32
  let h := n * 0xcc9e2d51 % 2 ^ 32
  let h2 := (h ^^^ (h >>> 15)) &&& 0xFFFF
  (h2 : ℚ) / 65535

theorem hashH2_le : ∀ px py : ℕ, hashH2 px py ≤ 65535 := by
  intro px py
  exact Nat.and_le_right

theorem wgslHashH2_eq_hashH2 (px py : ℕ) : wgslHashH2 px py = hashH2 px py := by
  have hmod : wrap32 (wrap32 (wrap32 (px * 127) + wrap32 (py * 311)) + 7919)
      = wrap32 (px * 127 + py * 311 + 7919) := by
    unfold wrap32
    omega
  simp only [wgslHashH2, hashH2, hmod]

theorem hash_nonneg (px py : ℕ) : 0 ≤ hash px py := by
  unfold hash
  positivity

theorem hash_le_one (px py : ℕ) : hash px py ≤ 1 := by
  unfold hash
  rw [div_le_one (by norm_num)]
  exact_mod_cast hashH2_le px py

theorem wgslHash_eq_hash (px py : ℕ) : wgslHash px py = hash px py := by
  unfold wgslHash hash
  rw [wgslHashH2_eq_hashH2]

theorem hash_eq_hashRef (x y : ℕ) : hash x y = hashRef x y := by
  have h : (x * 127 + y * 311 + 7919) % 4294967296 * 3432918353 % 4294967296
      = (x * 127 + y * 311 + 7919) * 3432918353 % 4294967296 := by
    omega
  unfold hash hashRef hashH2 wrap32
  norm_num [h]

/-! ### Visibility delay (`CanvasRenderer.render`, `fragmentMain` in render-pixels.wgsl) -/

/-- Visibility delay of a cell, from `CanvasRenderer.render`:
`delayRand = hash(cx, cy)`, `skewed = delayRand * delayRand`,
`visibilityDelay = Math.floor(skewed * 6)`. -/
def visibilityDelay (cx cy : ℕ) : ℕ :=
  let delayRand := hash cx cy
  let skewed := delayRand * delayRand
  Int.toNat ⌊skewed * 6⌋

/-- Whether an on cell of the given age is revealed; `CanvasRenderer.render`
paints the background when `age < visibilityDelay` and the cell's color
otherwise. -/
def revealed (age cx cy : ℕ) : Bool :=
  !(decide (age < visibilityDelay cx cy))

/-- Integer-arithmetic characterization of `visibilityDelay`, used to
evaluate it on concrete inputs. -/
theorem visibilityDelay_eq (cx cy : ℕ) :
    visibilityDelay cx cy = 6 * hashH2 cx cy ^ 2 / 4294836225 := by
  unfold visibilityDelay hash
  rw [Int.floor_toNat]
  have h1 : (hashH2 cx cy : ℚ) / 65535 * ((hashH2 cx cy : ℚ) / 65535) * 6
      = ((6 * hashH2 cx cy ^ 2 : ℕ) : ℚ) / ((4294836225 : ℕ) : ℚ) := by
    push_cast
    ring
  rw [h1, Nat.floor_div_nat, Nat.floor_natCast]

theorem visibilityDelay_le_six (cx cy : ℕ) : visibilityDelay cx cy ≤ 6 := by
  rw [visibilityDelay_eq]
  calc 6 * hashH2 cx cy ^ 2 / 4294836225
      ≤ 6 * 65535 ^ 2 / 4294836225 := by
        apply Nat.div_le_div_right
        have := hashH2_le cx cy
        nlinarith
    _ = 6 := by norm_num

/-- Claim C3 — counterexample.  At the integer coordinates (1700, 978) the
hash evaluates to exactly 1, so the claim that the result always lies in
the half-open interval [0, 1) is false. -/
theorem claim_C3_counterexample : hash 1700 978 = 1 ∧ ¬ hash 1700 978 < 1 := by
  have h : hashH2 1700 978 = 65535 := by decide
  unfold hash
  rw [h]
  norm_num

/-- Claim C3 (amended): for every pair of natural coordinates (x, y), the
hash of both backends equals the reference construction
`n = (x*127 + y*311 + 7919) mod 2^32`, `h = (n * 0xcc9e2d51) mod 2^32`,
`h2 = (h XOR (h >> 15)) AND 0xFFFF`, `result = h2 / 65535`, and the result
lies in the closed interval [0, 1]; the right endpoint 1 is attained
(e.g. at (1700, 978)), so [0,1] cannot be sharpened to [0,1). -/
theorem claim_C3 (x y : ℕ) :
    hash x y = hashRef x y ∧ wgslHash x y = hashRef x y ∧
      0 ≤ hash x y ∧ hash x y ≤ 1 :=
  ⟨hash_eq_hashRef x y, by rw [wgslHash_eq_hash, hash_eq_hashRef],
    hash_nonneg x y, hash_le_one x y⟩

/-- Claim C3 — witness for the amended theorem at concrete coordinates. -/
theorem claim_C3_witness :
    hash 12 34 = hashRef 12 34 ∧ wgslHash 12 34 = hashRef 12 34 ∧
      0 ≤ hash 12 34 ∧ hash 12 34 ≤ 1 :=
  claim_C3 12 34

/-- Claim C4 — counterexample.  At the coordinates (1700, 978) the hash is
exactly 1, so the visibility delay is `floor(1 * 1 * 6) = 6`, which does
not lie in the half-open interval [0, 6). -/
theorem claim_C4_counterexample :
    visibilityDelay 1700 978 = 6 ∧ ¬ visibilityDelay 1700 978 < 6 := by
  have h : visibilityDelay 1700 978 = 6 := by
    rw [visibilityDelay_eq]
    decide
  exact ⟨h, by omega⟩

/-- Claim C4 (amended): for every cell (x, y) with age `a`, the visibility
delay equals `floor(hash(x,y) * hash(x,y) * 6)`, this delay lies in the
closed interval [0, 6] (6 is attained exactly where the hash is 1, e.g. at
(1700, 978)), the cell is revealed if and only if `a >= delay`, and
consequently every on cell with age >= 6 is revealed. -/
theorem claim_C4 (x y a : ℕ) :
    visibilityDelay x y = Int.toNat ⌊hash x y * hash x y * 6⌋ ∧
      visibilityDelay x y ≤ 6 ∧
      (revealed a x y = true ↔ visibilityDelay x y ≤ a) ∧
      (6 ≤ a → revealed a x y = true) := by
  refine ⟨rfl, visibilityDelay_le_six x y, ?_, ?_⟩
  · unfold revealed
    simp [Nat.not_lt]
  · intro h6
    unfold revealed
    simp only [Bool.not_eq_eq_eq_not, Bool.not_true, decide_eq_false_iff_not, Nat.not_lt]
    exact le_trans (visibilityDelay_le_six x y) h6

/-- Claim C4 — witness: the amended theorem applied at concrete coordinates
(3, 5) with age 7, discharging the age hypothesis of the final conjunct. -/
theorem claim_C4_witness : 6 ≤ 7 ∧ revealed 7 3 5 = true :=
  ⟨by decide, (claim_C4 3 5 7).2.2.2 (by decide)⟩

/-! ### Growth simulation state

A `Uint32Array` (or a WebGPU storage buffer) is modelled as a total function
`ℕ → ℕ` that is `0` at indices never written, since typed arrays and WebGPU
buffers are zero-initialised.  The WebGPU state buffers hold `vec2<u32>`
cells and are modelled as `ℕ → ℕ × ℕ`. -/

abbrev Buffer := ℕ → ℕ

abbrev VecBuffer := ℕ → ℕ × ℕ

/-- State of `CanvasGrowthSimulation` from
`src/simulation/canvas-growth-simulation.ts`: the double-buffered flat
`(on, age)` state arrays, the ping-pong index, the intensity mask, and the
progress counters. -/
structure CanvasGrowthSimulation where
  width : ℕ
  height : ℕ
  state0 : Buffer
  state1 : Buffer
  currentBuffer : ℕ
  maskData : Buffer
  isComplete : Bool
  stepCount : ℕ

/-- State of the WebGPU `GrowthSimulation` (class in the unnamed source file
importing `growth.wgsl`): same shape, with `vec2<u32>` state buffers. -/
structure GrowthSimulation where
  width : ℕ
  height : ℕ
  state0 : VecBuffer
  state1 : VecBuffer
  currentBuffer : ℕ
  maskData : Buffer
  isComplete : Bool
  stepCount : ℕ

/-- The `CanvasGrowthSimulation` constructor: zeroed buffers, mask and
counters. -/
def CanvasGrowthSimulation.init (width height : ℕ) : CanvasGrowthSimulation :=
  { width := width, height := height
    state0 := fun _ => 0, state1 := fun _ => 0
    currentBuffer := 0, maskData := fun _ => 0
    isComplete := false, stepCount := 0 }

/-- The `GrowthSimulation` constructor (which ends in a call to `reset()`):
zeroed buffers, mask and counters. -/
def GrowthSimulation.init (width height : ℕ) : GrowthSimulation :=
  { width := width, height := height
    state0 := fun _ => (0, 0), state1 := fun _ => (0, 0)
    currentBuffer := 0, maskData := fun _ => 0
    isComplete := false, stepCount := 0 }

/-- `CanvasGrowthSimulation.reset`: zero both state buffers and clear the
progress flags.  `currentBuffer` is left unchanged, as in the source. -/
def CanvasGrowthSimulation.reset (s : CanvasGrowthSimulation) : CanvasGrowthSimulation :=
  { s with state0 := fun _ => 0, state1 := fun _ => 0
           isComplete := false, stepCount := 0 }

/-- `GrowthSimulation.reset`: write zeroes to both state buffers and clear
the progress flags.  `currentBuffer` is left unchanged, as in the source. -/
def GrowthSimulation.reset (s : GrowthSimulation) : GrowthSimulation :=
  { s with state0 := fun _ => (0, 0), state1 := fun _ => (0, 0)
           isComplete := false, stepCount := 0 }

/-- Nearest-neighbour resampling shared by `setMaskFromImage` and
`updateMask` in both backends: `imgX = Math.floor((x / width) * imageWidth)`
is `x * iw / w` on naturals, likewise `imgY`, and the red channel at byte
index `(imgY * imageWidth + imgX) * 4` is read. -/
def sampleIntensity (imageData : Buffer) (iw ih w h x y : ℕ) : ℕ :=
  imageData ((y * ih / h * iw + x * iw / w) * 4)

/-! ### The step rule -/

/-- One cell of the body of the `for` loops of
`CanvasGrowthSimulation.step`, at grid coordinates `(x, y)`.  The helper
`isOn` wraps with JavaScript `%` (truncated remainder, `Int.tmod`):
`wx = ((nx % w) + w) % w`. -/
def stepCellCanvas (current maskData : Buffer) (w h : ℕ) (x y : ℕ) : ℕ × ℕ :=
  let idx := y * w + x
  let stateIdx := idx * 2
  let isCurrentlyOn := current stateIdx == 1
  let currentAge := current (stateIdx + 1)
  let inTextRegion := maskData idx
  if inTextRegion = 0 then (0, 0)
  else if isCurrentlyOn then (1, currentAge + 1)
  else
    let isOn : ℤ → ℤ → Bool := fun nx ny =>
      let wx := (nx.tmod w + w).tmod w
      let wy := (ny.tmod h + h).tmod h
      current ((wy * w + wx).toNat * 2) == 1
    let hasActiveNeighbor :=
      isOn (x - 1) y || isOn (x + 1) y || isOn x (y - 1) || isOn x (y + 1) ||
      isOn (x - 1) (y - 1) || isOn (x + 1) (y - 1) ||
      isOn (x - 1) (y + 1) || isOn (x + 1) (y + 1)
    if hasActiveNeighbor then (1, 0) else (0, 0)

/-- `getIndex` from `growth.wgsl`: toroidal wrap with WGSL `i32` `%`
(truncated remainder), then cast back to `u32`. -/
def wgslGetIndex (w h : ℕ) (x y : ℤ) : ℕ :=
  let wx := (x.tmod w + w).tmod w
  let wy := (y.tmod h + h).tmod h
  (wy * w + wx).toNat

/-- `isOn` from `growth.wgsl`. -/
def wgslIsOn (current : VecBuffer) (w h : ℕ) (x y : ℤ) : Bool :=
  (current (wgslGetIndex w h x y)).1 == 1

/-- The compute entry `main` of `growth.wgsl` for the invocation handling
cell `(x, y)` (the guard `id.x >= w || id.y >= h` already passed). -/
def wgslMainCell (current : VecBuffer) (mask : Buffer) (w h : ℕ) (x y : ℕ) : ℕ × ℕ :=
  let idx := y * w + x
  let c := current idx
  let isCurrentlyOn := c.1 == 1
  let currentAge := c.2
  let inTextRegion := mask idx
  if inTextRegion = 0 then (0, 0)
  else if isCurrentlyOn then (1, currentAge + 1)
  else
    let hasActiveNeighbor :=
      wgslIsOn current w h (x - 1) y || wgslIsOn current w h (x + 1) y ||
      wgslIsOn current w h x (y - 1) || wgslIsOn current w h x (y + 1) ||
      wgslIsOn current w h (x - 1) (y - 1) || wgslIsOn current w h (x + 1) (y - 1) ||
      wgslIsOn current w h (x - 1) (y + 1) || wgslIsOn current w h (x + 1) (y + 1)
    if hasActiveNeighbor then (1, 0) else (0, 0)

/-- The whole `next` buffer written by one pass of the canvas `step` loops:
each flat index `i < w*h*2` is written exactly once, from the cell
`i / 2 = y*w + x`; indices beyond the array extent keep their value. -/
def canvasNextBuffer (current maskData : Buffer) (w h : ℕ) (next : Buffer) : Buffer :=
  fun i =>
    if i < w * h * 2 then
      let idx := i / 2
      let c := stepCellCanvas current maskData w h (idx % w) (idx / w)
      if i % 2 = 0 then c.1 else c.2
    else next i

/-- The whole `nextState` buffer written by one dispatch of `growth.wgsl`:
every cell `idx < w*h` is written by exactly one invocation (with
`id.x = idx % w`, `id.y = idx / w`); out-of-grid invocations return without
writing. -/
def gpuNextBuffer (current : VecBuffer) (mask : Buffer) (w h : ℕ) (next : VecBuffer) :
    VecBuffer :=
  fun idx =>
    if idx < w * h then wgslMainCell current mask w h (idx % w) (idx / w)
    else next idx

/-- `CanvasGrowthSimulation.step`: no-op when complete, otherwise bump the
counter, write the next buffer from the current one, swap buffers, and mark
completion once more than 60 steps have run. -/
def CanvasGrowthSimulation.step (s : CanvasGrowthSimulation) : CanvasGrowthSimulation :=
  if s.isComplete then s
  else
    let stepCount' := s.stepCount + 1
    let current := if s.currentBuffer = 0 then s.state0 else s.state1
    let next := if s.currentBuffer = 0 then s.state1 else s.state0
    let next' := canvasNextBuffer current s.maskData s.width s.height next
    { s with
      state0 := if s.currentBuffer = 0 then s.state0 else next'
      state1 := if s.currentBuffer = 0 then next' else s.state1
      currentBuffer := 1 - s.currentBuffer
      stepCount := stepCount'
      isComplete := decide (stepCount' > 60) }

/-- `GrowthSimulation.step`: same control flow, with the compute dispatch
writing the next `vec2<u32>` buffer. -/
def GrowthSimulation.step (s : GrowthSimulation) : GrowthSimulation :=
  if s.isComplete then s
  else
    let stepCount' := s.stepCount + 1
    let current := if s.currentBuffer = 0 then s.state0 else s.state1
    let next := if s.currentBuffer = 0 then s.state1 else s.state0
    let next' := gpuNextBuffer current s.maskData s.width s.height next
    { s with
      state0 := if s.currentBuffer = 0 then s.state0 else next'
      state1 := if s.currentBuffer = 0 then next' else s.state1
      currentBuffer := 1 - s.currentBuffer
      stepCount := stepCount'
      isComplete := decide (stepCount' > 60) }

/-- `CanvasGrowthSimulation.getCurrentState`: `stateBuffers[currentBuffer]`
(the ping-pong index is always 0 or 1). -/
def CanvasGrowthSimulation.getCurrentState (s : CanvasGrowthSimulation) : Buffer :=
  if s.currentBuffer = 0 then s.state0 else s.state1

/-- The buffer `stateBuffers[currentBuffer]` of the WebGPU backend, as read
back by `getCurrentStateBuffer`. -/
def GrowthSimulation.getCurrentState (s : GrowthSimulation) : VecBuffer :=
  if s.currentBuffer = 0 then s.state0 else s.state1

/-! ### Wraparound arithmetic lemmas -/

theorem tmod_gt_neg (z : ℤ) (w : ℕ) (hw : 0 < w) : -(w : ℤ) < z.tmod w := by
  cases z with
  | ofNat m =>
    have h0 : (0 : ℤ) ≤ (Int.ofNat m).tmod w := Int.tmod_nonneg _ (Int.ofNat_nonneg m)
    omega
  | negSucc m =>
    have h : (Int.negSucc m).tmod (Int.ofNat w) = -Int.ofNat ((m + 1) % w) := rfl
    rw [show ((w : ℕ) : ℤ) = Int.ofNat w from rfl, h]
    have h2 := Nat.mod_lt (m + 1) hw
    have h3 : (Int.ofNat ((m + 1) % w)) < Int.ofNat w := Int.ofNat_lt.mpr h2
    omega

/-- The JavaScript / WGSL wrap `((z % w) + w) % w` with truncated remainder
agrees with the mathematical nonnegative residue `z.emod w`. -/
theorem jsWrap_eq_emod (z : ℤ) (w : ℕ) (hw : 0 < w) :
    (z.tmod w + w).tmod w = z.emod w := by
  have hgt := tmod_gt_neg z w hw
  have h0 : (0 : ℤ) ≤ z.tmod w + w := by omega
  rw [Int.tmod_eq_emod h0 (by exact_mod_cast Nat.zero_le w)]
  rw [Int.tmod_def]
  have h1 : z - (w : ℤ) * z.tdiv w + w = z + (1 - z.tdiv w) * w := by ring
  rw [h1, Int.add_mul_emod_self]
  rfl

/-- Toroidal cell index from the spec's words: the 8 Moore neighbours are
"addressed with toroidal wraparound", i.e. by the mathematical residues of
the coordinates. -/
def torusIdx (w h : ℕ) (nx ny : ℤ) : ℕ :=
  (ny.emod h * w + nx.emod w).toNat

/-- The Moore neighbourhood offsets, in the order the sources test them. -/
def mooreOffsets : List (ℤ × ℤ) :=
  [(-1, 0), (1, 0), (0, -1), (0, 1), (-1, -1), (1, -1), (-1, 1), (1, 1)]

theorem wgslGetIndex_eq_torusIdx (w h : ℕ) (hw : 0 < w) (hh : 0 < h) (x y : ℤ) :
    wgslGetIndex w h x y = torusIdx w h x y := by
  unfold wgslGetIndex torusIdx
  rw [jsWrap_eq_emod x w hw, jsWrap_eq_emod y h hh]

/-- The step rule in the words of the spec (three cases; the third turns an
off eligible cell on exactly when some Moore neighbour, addressed with
toroidal wraparound, is on), for the flat canvas state layout. -/
def specNextCellFlat (current maskData : Buffer) (w h x y : ℕ) : ℕ × ℕ :=
  let idx := y * w + x
  if maskData idx = 0 then (0, 0)
  else if current (idx * 2) = 1 then (1, current (idx * 2 + 1) + 1)
  else if ∃ p ∈ mooreOffsets,
      current (torusIdx w h ((x : ℤ) + p.1) ((y : ℤ) + p.2) * 2) = 1 then (1, 0)
  else (0, 0)

/-- The step rule in the words of the spec, for the `vec2<u32>` WebGPU state
layout. -/
def specNextCellVec (current : VecBuffer) (maskData : Buffer) (w h x y : ℕ) : ℕ × ℕ :=
  let idx := y * w + x
  if maskData idx = 0 then (0, 0)
  else if (current idx).1 = 1 then (1, (current idx).2 + 1)
  else if ∃ p ∈ mooreOffsets,
      (current (torusIdx w h ((x : ℤ) + p.1) ((y : ℤ) + p.2))).1 = 1 then (1, 0)
  else (0, 0)

theorem stepCellCanvas_eq_spec (current mask : Buffer) (w h x y : ℕ)
    (hx : x < w) (hy : y < h) :
    stepCellCanvas current mask w h x y = specNextCellFlat current mask w h x y := by
  have hw : 0 < w := Nat.zero_lt_of_lt hx
  have hh : 0 < h := Nat.zero_lt_of_lt hy
  have ew : ∀ z : ℤ, (z.tmod w + w).tmod w = z.emod w := fun z => jsWrap_eq_emod z w hw
  have eh : ∀ z : ℤ, (z.tmod h + h).tmod h = z.emod h := fun z => jsWrap_eq_emod z h hh
  by_cases hm : mask (y * w + x) = 0
  · simp [stepCellCanvas, specNextCellFlat, hm]
  · by_cases hon : current ((y * w + x) * 2) = 1
    · simp [stepCellCanvas, specNextCellFlat, hm, hon]
    · simp only [stepCellCanvas, specNextCellFlat, hm, hon, if_false, beq_iff_eq,
        if_neg hm, if_neg hon, mooreOffsets, List.exists_mem_cons_iff,
        List.not_mem_nil, false_and, exists_false, or_false, torusIdx, ew, eh,
        Bool.or_eq_true, decide_eq_true_eq]
      simp [or_assoc, sub_eq_add_neg]

theorem wgslMainCell_eq_spec (vcur : VecBuffer) (mask : Buffer) (w h x y : ℕ)
    (hx : x < w) (hy : y < h) :
    wgslMainCell vcur mask w h x y = specNextCellVec vcur mask w h x y := by
  have hw : 0 < w := Nat.zero_lt_of_lt hx
  have hh : 0 < h := Nat.zero_lt_of_lt hy
  by_cases hm : mask (y * w + x) = 0
  · simp [wgslMainCell, specNextCellVec, hm]
  · by_cases hon : (vcur (y * w + x)).1 = 1
    · simp [wgslMainCell, specNextCellVec, hm, hon]
    · simp only [wgslMainCell, specNextCellVec, hm, hon, beq_iff_eq,
        if_neg hm, if_neg hon, mooreOffsets, List.exists_mem_cons_iff,
        List.not_mem_nil, false_and, exists_false, or_false, wgslIsOn,
        wgslGetIndex_eq_torusIdx w h hw hh, Bool.or_eq_true,
        decide_eq_true_eq]
      simp [or_assoc, sub_eq_add_neg]

/-- Claim C2: for every cell of the grid, in both backends, the next state
is computed from the current buffer alone by exactly the three spec cases:
mask 0 forces (off, 0); an on cell stays on ageing by 1; an off eligible
cell turns on with age 0 iff one of its 8 toroidally addressed Moore
neighbours is on. -/
theorem claim_C2 (current : Buffer) (vcur : VecBuffer) (mask : Buffer)
    (w h x y : ℕ) (hx : x < w) (hy : y < h) :
    stepCellCanvas current mask w h x y = specNextCellFlat current mask w h x y ∧
      wgslMainCell vcur mask w h x y = specNextCellVec vcur mask w h x y :=
  ⟨stepCellCanvas_eq_spec current mask w h x y hx hy,
    wgslMainCell_eq_spec vcur mask w h x y hx hy⟩

/-- Claim C2 — witness at a concrete cell of a 2×2 grid. -/
theorem claim_C2_witness :
    (1 : ℕ) < 2 ∧
      (stepCellCanvas (fun _ => 0) (fun _ => 0) 2 2 1 1 =
          specNextCellFlat (fun _ => 0) (fun _ => 0) 2 2 1 1 ∧
        wgslMainCell (fun _ => (0, 0)) (fun _ => 0) 2 2 1 1 =
          specNextCellVec (fun _ => (0, 0)) (fun _ => 0) 2 2 1 1) :=
  ⟨by decide, claim_C2 (fun _ => 0) (fun _ => (0, 0)) (fun _ => 0) 2 2 1 1
    (by decide) (by decide)⟩

/-! ### Step bookkeeping lemmas -/

theorem canvasStep_preserves (s : CanvasGrowthSimulation) :
    s.step.width = s.width ∧ s.step.height = s.height ∧ s.step.maskData = s.maskData := by
  by_cases hc : s.isComplete <;> simp [CanvasGrowthSimulation.step, hc]

theorem gpuStep_preserves (s : GrowthSimulation) :
    s.step.width = s.width ∧ s.step.height = s.height ∧ s.step.maskData = s.maskData := by
  by_cases hc : s.isComplete <;> simp [GrowthSimulation.step, hc]

theorem canvasStep_current (s : CanvasGrowthSimulation) (hc : s.isComplete = false) :
    s.step.getCurrentState
      = canvasNextBuffer s.getCurrentState s.maskData s.width s.height
          (if s.currentBuffer = 0 then s.state1 else s.state0) := by
  by_cases h0 : s.currentBuffer = 0
  · simp [CanvasGrowthSimulation.step, CanvasGrowthSimulation.getCurrentState, hc, h0]
  · have h1 : 1 - s.currentBuffer = 0 := by omega
    simp [CanvasGrowthSimulation.step, CanvasGrowthSimulation.getCurrentState, hc, h0, h1]

theorem gpuStep_current (s : GrowthSimulation) (hc : s.isComplete = false) :
    s.step.getCurrentState
      = gpuNextBuffer s.getCurrentState s.maskData s.width s.height
          (if s.currentBuffer = 0 then s.state1 else s.state0) := by
  by_cases h0 : s.currentBuffer = 0
  · simp [GrowthSimulation.step, GrowthSimulation.getCurrentState, hc, h0]
  · have h1 : 1 - s.currentBuffer = 0 := by omega
    simp [GrowthSimulation.step, GrowthSimulation.getCurrentState, hc, h0, h1]

theorem canvas_on_step (s : CanvasGrowthSimulation) (i : ℕ)
    (hi : i < s.width * s.height) (hm : s.maskData i ≠ 0)
    (hon : s.getCurrentState (i * 2) = 1) :
    s.step.getCurrentState (i * 2) = 1 := by
  by_cases hc : s.isComplete
  · have hs : s.step = s := by simp [CanvasGrowthSimulation.step, hc]
    rw [hs]
    exact hon
  · rw [canvasStep_current s (by simpa using hc)]
    have h2 : i * 2 < s.width * s.height * 2 := by omega
    have hdiv : i * 2 / 2 = i := by omega
    have hmod : i * 2 % 2 = 0 := by omega
    have hxy : i / s.width * s.width + i % s.width = i := by
      rw [Nat.mul_comm]
      exact Nat.div_add_mod i s.width
    simp only [canvasNextBuffer, if_pos h2, hdiv, hmod, if_pos rfl]
    unfold stepCellCanvas
    rw [hxy]
    simp [hm, hon]

theorem gpu_on_step (s : GrowthSimulation) (i : ℕ)
    (hi : i < s.width * s.height) (hm : s.maskData i ≠ 0)
    (hon : (s.getCurrentState i).1 = 1) :
    (s.step.getCurrentState i).1 = 1 := by
  by_cases hc : s.isComplete
  · have hs : s.step = s := by simp [GrowthSimulation.step, hc]
    rw [hs]
    exact hon
  · rw [gpuStep_current s (by simpa using hc)]
    have hxy : i / s.width * s.width + i % s.width = i := by
      rw [Nat.mul_comm]
      exact Nat.div_add_mod i s.width
    simp only [gpuNextBuffer, if_pos hi]
    unfold wgslMainCell
    rw [hxy]
    simp [hm, hon]

/-- Claim C7: in both backends, once a cell's on flag is true it remains
true after every subsequent step() for as long as that cell's mask value is
nonzero (the mask never changes during stepping). -/
theorem claim_C7 :
    (∀ (s : CanvasGrowthSimulation) (i k : ℕ), i < s.width * s.height →
        s.maskData i ≠ 0 → s.getCurrentState (i * 2) = 1 →
        ((CanvasGrowthSimulation.step)^[k] s).getCurrentState (i * 2) = 1) ∧
    (∀ (g : GrowthSimulation) (i k : ℕ), i < g.width * g.height →
        g.maskData i ≠ 0 → (g.getCurrentState i).1 = 1 →
        (((GrowthSimulation.step)^[k] g).getCurrentState i).1 = 1) := by
  constructor
  · intro s i k
    induction k generalizing s with
    | zero => intro _ _ hon; simpa using hon
    | succ k ih =>
      intro hi hm hon
      rw [Function.iterate_succ_apply]
      obtain ⟨hw, hh, hmk⟩ := canvasStep_preserves s
      exact ih s.step (by rw [hw, hh]; exact hi) (by rw [hmk]; exact hm)
        (canvas_on_step s i hi hm hon)
  · intro g i k
    induction k generalizing g with
    | zero => intro _ _ hon; simpa using hon
    | succ k ih =>
      intro hi hm hon
      rw [Function.iterate_succ_apply]
      obtain ⟨hw, hh, hmk⟩ := gpuStep_preserves g
      exact ih g.step (by rw [hw, hh]; exact hi) (by rw [hmk]; exact hm)
        (gpu_on_step g i hi hm hon)

/-- A concrete canvas simulation with one on, mask-eligible cell, used by
witnesses. -/
def onCanvasSim : CanvasGrowthSimulation :=
  { width := 1, height := 1
    state0 := fun i => if i = 0 then 1 else 0
    state1 := fun i => if i = 0 then 1 else 0
    currentBuffer := 0
    maskData := fun _ => 255
    isComplete := false, stepCount := 0 }

/-- A concrete WebGPU simulation with one on, mask-eligible cell, used by
witnesses. -/
def onGpuSim : GrowthSimulation :=
  { width := 1, height := 1
    state0 := fun _ => (1, 0), state1 := fun _ => (1, 0)
    currentBuffer := 0
    maskData := fun _ => 1
    isComplete := false, stepCount := 0 }

/-- Claim C7 — witness: the single eligible on cell of a 1×1 grid is still
on after 3 steps, in both backends. -/
theorem claim_C7_witness :
    ((0 : ℕ) < 1 ∧ (255 : ℕ) ≠ 0 ∧ onCanvasSim.getCurrentState 0 = 1 ∧
      ((CanvasGrowthSimulation.step)^[3] onCanvasSim).getCurrentState (0 * 2) = 1) ∧
    ((1 : ℕ) ≠ 0 ∧ (onGpuSim.getCurrentState 0).1 = 1 ∧
      (((GrowthSimulation.step)^[3] onGpuSim).getCurrentState 0).1 = 1) :=
  ⟨⟨by decide, by decide, by decide,
      claim_C7.1 onCanvasSim 0 3 (by decide) (by decide) (by decide)⟩,
    ⟨by decide, by decide,
      claim_C7.2 onGpuSim 0 3 (by decide) (by decide) (by decide)⟩⟩

/-- Claim C8: once a simulation is complete, step() is the identity on the
whole simulation state — both state buffers, the current-buffer index, the
mask, the step counter and the completion flag are unchanged — in both
backends. -/
theorem claim_C8 (s : CanvasGrowthSimulation) (g : GrowthSimulation) :
    (s.isComplete = true → s.step = s) ∧ (g.isComplete = true → g.step = g) := by
  constructor
  · intro hc
    simp [CanvasGrowthSimulation.step, hc]
  · intro hc
    simp [GrowthSimulation.step, hc]

/-- A concrete completed canvas simulation, used by witnesses. -/
def completeCanvasSim : CanvasGrowthSimulation :=
  { width := 1, height := 1
    state0 := fun _ => 0, state1 := fun _ => 0
    currentBuffer := 0, maskData := fun _ => 255
    isComplete := true, stepCount := 61 }

/-- A concrete completed WebGPU simulation, used by witnesses. -/
def completeGpuSim : GrowthSimulation :=
  { width := 1, height := 1
    state0 := fun _ => (0, 0), state1 := fun _ => (0, 0)
    currentBuffer := 0, maskData := fun _ => 1
    isComplete := true, stepCount := 61 }

/-- Claim C8 — witness on concrete completed simulations. -/
theorem claim_C8_witness :
    completeCanvasSim.step = completeCanvasSim ∧ completeGpuSim.step = completeGpuSim :=
  ⟨(claim_C8 completeCanvasSim completeGpuSim).1 rfl,
    (claim_C8 completeCanvasSim completeGpuSim).2 rfl⟩

/-! ### Seed placement: flood fill over connected components -/

/-- Bounds test `x < 0 || x >= width || y < 0 || y >= height` of `floodFill`,
negated: the coordinate pair lies inside the grid. -/
def inGrid (w h : ℕ) (p : ℤ × ℤ) : Prop :=
  0 ≤ p.1 ∧ p.1 < (w : ℤ) ∧ 0 ≤ p.2 ∧ p.2 < (h : ℤ)

instance (w h : ℕ) (p : ℤ × ℤ) : Decidable (inGrid w h p) := by
  unfold inGrid
  infer_instance

/-- Flat cell index `idx = y * width + x` of an in-grid coordinate pair. -/
def cellIdx (w : ℕ) (p : ℤ × ℤ) : ℕ := (p.2 * w + p.1).toNat

/-- The four cardinal coordinates pushed by one marking iteration of
`floodFill`. -/
def nbrsOf (x y : ℤ) : List (ℤ × ℤ) := [(x - 1, y), (x + 1, y), (x, y - 1), (x, y + 1)]

/-- The `while (stack.length > 0)` loop of `floodFill`, shared verbatim by
both backends up to the eligibility test (`maskData[idx] <= threshold` in
the canvas backend, `maskData[idx] === 0` in the WebGPU backend), here
abstracted as `elig`.  JavaScript `pop()` takes the most recently pushed
entry, so the head of the list is the top of the stack and the four pushes
appear head-first in reverse push order. -/
def floodFillLoop (w h : ℕ) (elig : ℕ → Bool) (stack : List (ℤ × ℤ))
    (visited : Finset ℕ) (comp : List ℕ) : Finset ℕ × List ℕ :=
  match stack with
  | [] => (visited, comp)
  | (x, y) :: rest =>
    if x < 0 ∨ (w : ℤ) ≤ x ∨ y < 0 ∨ (h : ℤ) ≤ y then
      floodFillLoop w h elig rest visited comp
    else
      if cellIdx w (x, y) ∈ visited ∨ elig (cellIdx w (x, y)) = false then
        floodFillLoop w h elig rest visited comp
      else
        floodFillLoop w h elig
          ((x, y + 1) :: (x, y - 1) :: (x + 1, y) :: (x - 1, y) :: rest)
          (insert (cellIdx w (x, y)) visited) (comp ++ [cellIdx w (x, y)])
termination_by 4 * ((Finset.range (w * h)) \ visited).card + stack.length
decreasing_by
  · simp
  · simp
  · rename_i hb hv
    push_neg at hb
    push_neg at hv
    obtain ⟨hx0, hxw, hy0, hyh⟩ := hb
    have hyw : y * w ≤ ((h : ℤ) - 1) * w :=
      mul_le_mul_of_nonneg_right (by omega) (by positivity)
    have hexp : ((h : ℤ) - 1) * w = (h : ℤ) * w - w := by ring
    have hyw0 : (0 : ℤ) ≤ y * w := mul_nonneg hy0 (by positivity)
    have hcast : ((w * h : ℕ) : ℤ) = (h : ℤ) * w := by push_cast; ring
    have hidx : cellIdx w (x, y) < w * h := by
      show (y * (w : ℤ) + x).toNat < w * h
      omega
    have hmem : cellIdx w (x, y) ∈ Finset.range (w * h) \ visited := by
      simp only [Finset.mem_sdiff, Finset.mem_range]
      exact ⟨hidx, hv.1⟩
    have he : Finset.range (w * h) \ insert (cellIdx w (x, y)) visited
        = (Finset.range (w * h) \ visited).erase (cellIdx w (x, y)) := by
      ext a
      simp only [Finset.mem_sdiff, Finset.mem_insert, Finset.mem_erase, Finset.mem_range]
      tauto
    rw [he, Finset.card_erase_of_mem hmem]
    have hpos : 0 < (Finset.range (w * h) \ visited).card :=
      Finset.card_pos.mpr ⟨_, hmem⟩
    simp only [List.length_cons]
    omega

/-- One scanned cell of the `placeSeeds` double loop: start a flood fill at
every yet-unvisited scan-eligible cell, and record the component when it is
nonempty. -/
def scanCell (w h : ℕ) (scanElig elig : ℕ → Bool) (acc : Finset ℕ × List (List ℕ))
    (x y : ℕ) : Finset ℕ × List (List ℕ) :=
  let idx := y * w + x
  if scanElig idx = true ∧ idx ∉ acc.1 then
    let r := floodFillLoop w h elig [((x : ℤ), (y : ℤ))] acc.1 []
    if 0 < r.2.length then (r.1, acc.2 ++ [r.2]) else (r.1, acc.2)
  else acc

/-- The `placeSeeds` scan over all cells, `y` outer and `x` inner, returning
the visited set and the list of discovered components in discovery order. -/
def placeSeedsScan (w h : ℕ) (scanElig elig : ℕ → Bool) : Finset ℕ × List (List ℕ) :=
  (List.range h).foldl
    (fun acc y => (List.range w).foldl (fun acc2 x => scanCell w h scanElig elig acc2 x y) acc)
    (∅, [])

/-- `Math.floor(Math.random() * component.length)`, with the random draw
passed in explicitly as a rational. -/
def randomIdx (r : ℚ) (len : ℕ) : ℕ := (⌊r * len⌋).toNat

/-- One seed write into the flat canvas state buffer:
`stateData[cellIdx * 2] = 1; stateData[cellIdx * 2 + 1] = 0`. -/
def writeSeedFlat (st : Buffer) (c : ℕ) : Buffer :=
  fun i => if i = c * 2 then 1 else if i = c * 2 + 1 then 0 else st i

/-- One seed write into the WebGPU state data, which stores the same two
words as the cell's `vec2<u32>`. -/
def writeSeedVec (st : VecBuffer) (c : ℕ) : VecBuffer :=
  fun i => if i = c then (1, 0) else st i

/-- The `for (const component of components)` seed loop of the canvas
backend; the `k`-th component consumes the `k`-th `Math.random()` draw. -/
def applySeedsFlat (rand : ℕ → ℚ) (k : ℕ) (components : List (List ℕ)) (st : Buffer) :
    Buffer :=
  match components with
  | [] => st
  | c :: rest =>
    applySeedsFlat rand (k + 1) rest (writeSeedFlat st (c.getD (randomIdx (rand k) c.length) 0))

/-- The seed loop of the WebGPU backend, writing into the fresh state data
array. -/
def applySeedsVec (rand : ℕ → ℚ) (k : ℕ) (components : List (List ℕ)) (st : VecBuffer) :
    VecBuffer :=
  match components with
  | [] => st
  | c :: rest =>
    applySeedsVec rand (k + 1) rest (writeSeedVec st (c.getD (randomIdx (rand k) c.length) 0))

/-- `CanvasGrowthSimulation.setMaskFromImage`: reset, store the resampled
intensity values into the mask, then place one random seed per 4-connected
component above the seed threshold 128 in buffer 0 and copy it to
buffer 1. -/
def CanvasGrowthSimulation.setMaskFromImage (s : CanvasGrowthSimulation) (rand : ℕ → ℚ)
    (imageData : Buffer) (iw ih : ℕ) : CanvasGrowthSimulation :=
  let s0 := s.reset
  let mask' : Buffer := fun idx =>
    if idx < s0.width * s0.height then
      sampleIntensity imageData iw ih s0.width s0.height (idx % s0.width) (idx / s0.width)
    else s0.maskData idx
  let scanElig : ℕ → Bool := fun idx => decide (128 < mask' idx)
  let elig : ℕ → Bool := fun idx => !(decide (mask' idx ≤ 128))
  let comps := (placeSeedsScan s0.width s0.height scanElig elig).2
  let st := applySeedsFlat rand 0 comps s0.state0
  { s0 with maskData := mask', state0 := st, state1 := st }

/-- `GrowthSimulation.setMaskFromImage`: reset, store the binarized mask
(threshold 64), seed one random cell per component of mask value 1 into a
fresh state array, and upload it to both buffers. -/
def GrowthSimulation.setMaskFromImage (s : GrowthSimulation) (rand : ℕ → ℚ)
    (imageData : Buffer) (iw ih : ℕ) : GrowthSimulation :=
  let s0 := s.reset
  let mask' : Buffer := fun idx =>
    if idx < s0.width * s0.height then
      if 64 < sampleIntensity imageData iw ih s0.width s0.height (idx % s0.width) (idx / s0.width)
      then 1 else 0
    else s0.maskData idx
  let scanElig : ℕ → Bool := fun idx => decide (mask' idx = 1)
  let elig : ℕ → Bool := fun idx => !(decide (mask' idx = 0))
  let comps := (placeSeedsScan s0.width s0.height scanElig elig).2
  let st := applySeedsVec rand 0 comps (fun _ => (0, 0))
  { s0 with maskData := mask', state0 := st, state1 := st }

/-- `CanvasGrowthSimulation.updateMask`: overwrite the mask with the
binarized (threshold 64) resampled image without touching the state
buffers; if the run was complete, re-enter the growing state with the step
counter at 500. -/
def CanvasGrowthSimulation.updateMask (s : CanvasGrowthSimulation)
    (imageData : Buffer) (iw ih : ℕ) : CanvasGrowthSimulation :=
  let mask' : Buffer := fun idx =>
    if idx < s.width * s.height then
      if 64 < sampleIntensity imageData iw ih s.width s.height (idx % s.width) (idx / s.width)
      then 1 else 0
    else s.maskData idx
  if s.isComplete then { s with maskData := mask', isComplete := false, stepCount := 500 }
  else { s with maskData := mask' }

/-! ### Bounded completion -/

theorem canvas_iterate_stepCount (s : CanvasGrowthSimulation)
    (h0 : s.isComplete = false) (hc : s.stepCount = 0) :
    ∀ k, k ≤ 61 →
      ((CanvasGrowthSimulation.step)^[k] s).stepCount = k ∧
        ((CanvasGrowthSimulation.step)^[k] s).isComplete = decide (60 < k) := by
  intro k
  induction k with
  | zero => intro _; simpa using ⟨hc, h0⟩
  | succ k ih =>
    intro hk
    have hk' : k ≤ 61 := by omega
    obtain ⟨hsc, hic⟩ := ih hk'
    have hkc : ((CanvasGrowthSimulation.step)^[k] s).isComplete = false := by
      rw [hic]
      simp only [decide_eq_false_iff_not, not_lt]
      omega
    rw [Function.iterate_succ_apply']
    constructor
    · simp [CanvasGrowthSimulation.step, hkc, hsc]
    · simp [CanvasGrowthSimulation.step, hkc, hsc]

theorem gpu_iterate_stepCount (s : GrowthSimulation)
    (h0 : s.isComplete = false) (hc : s.stepCount = 0) :
    ∀ k, k ≤ 61 →
      ((GrowthSimulation.step)^[k] s).stepCount = k ∧
        ((GrowthSimulation.step)^[k] s).isComplete = decide (60 < k) := by
  intro k
  induction k with
  | zero => intro _; simpa using ⟨hc, h0⟩
  | succ k ih =>
    intro hk
    have hk' : k ≤ 61 := by omega
    obtain ⟨hsc, hic⟩ := ih hk'
    have hkc : ((GrowthSimulation.step)^[k] s).isComplete = false := by
      rw [hic]
      simp only [decide_eq_false_iff_not, not_lt]
      omega
    rw [Function.iterate_succ_apply']
    constructor
    · simp [GrowthSimulation.step, hkc, hsc]
    · simp [GrowthSimulation.step, hkc, hsc]

/-- Claim C5: from a mask freshly loaded with setMaskFromImage (non-empty,
as the claim assumes), isComplete() is false after 60 or fewer step() calls
and true after 61, in both backends. -/
theorem claim_C5 (s : CanvasGrowthSimulation) (g : GrowthSimulation) (rand : ℕ → ℚ)
    (imageData : Buffer) (iw ih : ℕ)
    (hne : ∃ i < s.width * s.height,
      (s.setMaskFromImage rand imageData iw ih).maskData i ≠ 0)
    (hgne : ∃ i < g.width * g.height,
      (g.setMaskFromImage rand imageData iw ih).maskData i ≠ 0) :
    (∀ k ≤ 60, ((CanvasGrowthSimulation.step)^[k]
        (s.setMaskFromImage rand imageData iw ih)).isComplete = false) ∧
      ((CanvasGrowthSimulation.step)^[61]
        (s.setMaskFromImage rand imageData iw ih)).isComplete = true ∧
      (∀ k ≤ 60, ((GrowthSimulation.step)^[k]
        (g.setMaskFromImage rand imageData iw ih)).isComplete = false) ∧
      ((GrowthSimulation.step)^[61]
        (g.setMaskFromImage rand imageData iw ih)).isComplete = true := by
  have hc0 : (s.setMaskFromImage rand imageData iw ih).isComplete = false := rfl
  have hs0 : (s.setMaskFromImage rand imageData iw ih).stepCount = 0 := rfl
  have hgc0 : (g.setMaskFromImage rand imageData iw ih).isComplete = false := rfl
  have hgs0 : (g.setMaskFromImage rand imageData iw ih).stepCount = 0 := rfl
  refine ⟨?_, ?_, ?_, ?_⟩
  · intro k hk
    have := (canvas_iterate_stepCount _ hc0 hs0 k (by omega)).2
    rw [this]
    simp only [decide_eq_false_iff_not, not_lt]
    omega
  · have := (canvas_iterate_stepCount _ hc0 hs0 61 (by omega)).2
    rw [this]
    decide
  · intro k hk
    have := (gpu_iterate_stepCount _ hgc0 hgs0 k (by omega)).2
    rw [this]
    simp only [decide_eq_false_iff_not, not_lt]
    omega
  · have := (gpu_iterate_stepCount _ hgc0 hgs0 61 (by omega)).2
    rw [this]
    decide

/-- Claim C5 — witness: a 1×1 all-eligible mask on both freshly constructed
backends is complete after exactly 61 steps. -/
theorem claim_C5_witness :
    (∃ i < (CanvasGrowthSimulation.init 1 1).width * (CanvasGrowthSimulation.init 1 1).height,
      ((CanvasGrowthSimulation.init 1 1).setMaskFromImage (fun _ => 0) (fun _ => 255) 1 1).maskData i ≠ 0) ∧
    (∃ i < (GrowthSimulation.init 1 1).width * (GrowthSimulation.init 1 1).height,
      ((GrowthSimulation.init 1 1).setMaskFromImage (fun _ => 0) (fun _ => 255) 1 1).maskData i ≠ 0) ∧
    ((CanvasGrowthSimulation.step)^[61]
      ((CanvasGrowthSimulation.init 1 1).setMaskFromImage (fun _ => 0) (fun _ => 255) 1 1)).isComplete = true ∧
    ((GrowthSimulation.step)^[61]
      ((GrowthSimulation.init 1 1).setMaskFromImage (fun _ => 0) (fun _ => 255) 1 1)).isComplete = true := by
  have pc : ∃ i < (CanvasGrowthSimulation.init 1 1).width * (CanvasGrowthSimulation.init 1 1).height,
      ((CanvasGrowthSimulation.init 1 1).setMaskFromImage (fun _ => 0) (fun _ => 255) 1 1).maskData i ≠ 0 :=
    ⟨0, by decide, by decide⟩
  have pg : ∃ i < (GrowthSimulation.init 1 1).width * (GrowthSimulation.init 1 1).height,
      ((GrowthSimulation.init 1 1).setMaskFromImage (fun _ => 0) (fun _ => 255) 1 1).maskData i ≠ 0 :=
    ⟨0, by decide, by decide⟩
  have hmain := claim_C5 (CanvasGrowthSimulation.init 1 1) (GrowthSimulation.init 1 1)
    (fun _ => 0) (fun _ => 255) 1 1 pc pg
  exact ⟨pc, pg, hmain.2.1, hmain.2.2.2⟩

/-! ### Renderer (`CanvasRenderer.render`, matching `fragmentMain` of
render-pixels.wgsl) -/

/-- Integer part of `CanvasRenderer.hashTime` / `hashTime` in
render-pixels.wgsl: the input sum additionally includes `t * 5381`. -/
def hashTimeH2 (px py t : ℕ) : ℕ :=
  let n := wrap32 (px * 127 + py * 311 + t * 5381 + 7919)
  let h := wrap32 (n * 0xcc9e2d51)
  (h ^^^ (h >>> 15)) &&& 0xFFFF

/-- `CanvasRenderer.hashTime`. -/
def hashTime (px py t : ℕ) : ℚ := (hashTimeH2 px py t : ℚ) / 65535

/-- Palette constant `VOID_BLACK = #0A0E14` of `CanvasRenderer`. -/
def VOID_BLACK : ℕ × ℕ × ℕ := (10, 14, 20)

/-- Palette constant `WHITE` of `CanvasRenderer`. -/
def WHITE : ℕ × ℕ × ℕ := (232, 227, 222)

/-- Palette constant `SHADOW` (blizzard blue tint) of `CanvasRenderer`. -/
def SHADOW : ℕ × ℕ × ℕ := (140, 166, 184)

/-- The aspect-corrected UV coordinates of an output pixel, identical in
`CanvasRenderer.render` and `fragmentMain` of render-pixels.wgsl: a canvas
wider than the simulation letterboxes horizontally (scales `uvX` about
0.5), otherwise it letterboxes vertically (scales `uvY` about 0.5), and
then the content is shifted up by adding 0.07 to `uvY`. -/
def aspectUV (canvasWidth canvasHeight simWidth simHeight px py : ℕ) : ℚ × ℚ :=
  let canvasAspect : ℚ := (canvasWidth : ℚ) / canvasHeight
  let simAspect : ℚ := (simWidth : ℚ) / simHeight
  let uvX0 : ℚ := (px : ℚ) / canvasWidth
  let uvY0 : ℚ := (py : ℚ) / canvasHeight
  let uvX := if canvasAspect > simAspect
    then (uvX0 - 1/2) * (canvasAspect / simAspect) + 1/2 else uvX0
  let uvY := (if canvasAspect > simAspect
    then uvY0 else (uvY0 - 1/2) * (simAspect / canvasAspect) + 1/2) + 7/100
  (uvX, uvY)

/-- Whether the aspect-corrected UV lies outside the simulation's [0,1]²
domain, in which case the renderer paints the background. -/
def mapsOutside (canvasWidth canvasHeight simWidth simHeight px py : ℕ) : Prop :=
  let uv := aspectUV canvasWidth canvasHeight simWidth simHeight px py
  uv.1 < 0 ∨ uv.1 > 1 ∨ uv.2 < 0 ∨ uv.2 > 1

/-- The branch condition deciding which axis is letterboxed: the source
takes the vertical-letterbox branch exactly when the canvas aspect is not
greater than the simulation aspect. -/
def letterboxesVertically (canvasWidth canvasHeight simWidth simHeight : ℕ) : Prop :=
  ¬ ((canvasWidth : ℚ) / canvasHeight > (simWidth : ℚ) / simHeight)

/-- The underline-region test of the renderer, on aspect-corrected UVs. -/
def inUnderline (ux uy uw uh : ℚ) (uv : ℚ × ℚ) : Prop :=
  ux ≤ uv.1 ∧ uv.1 ≤ ux + uw ∧ uy ≤ uv.2 ∧ uv.2 ≤ uy + uh ∧ 0 < uw

instance (ux uy uw uh : ℚ) (uv : ℚ × ℚ) : Decidable (inUnderline ux uy uw uh uv) := by
  unfold inUnderline
  infer_instance

/-- The idle-wobble displacement block of the renderer: when enabled and
the per-cell hash is below 0.03, move one grid step in one of 4 directions
chosen by `floor(chance*133) mod 4`, clamped at the grid edges. -/
def wobbleCell (simWidth simHeight : ℕ) (wobbleEnabled : Bool) (timeSlot cx0 cy0 : ℕ) :
    ℕ × ℕ :=
  if wobbleEnabled then
    let wobbleChance := hashTime cx0 cy0 timeSlot
    if wobbleChance < 3/100 then
      let dir := (⌊wobbleChance * 133⌋).toNat % 4
      if dir = 0 ∧ 0 < cx0 then (cx0 - 1, cy0)
      else if dir = 1 ∧ cx0 < simWidth - 1 then (cx0 + 1, cy0)
      else if dir = 2 ∧ 0 < cy0 then (cx0, cy0 - 1)
      else if dir = 3 ∧ cy0 < simHeight - 1 then (cx0, cy0 + 1)
      else (cx0, cy0)
    else (cx0, cy0)
  else (cx0, cy0)

/-- The tail of the renderer's per-pixel logic after a cell has been
resolved: off cells and not-yet-revealed cells are background, revealed
cells are white where the mask intensity exceeds 128 and shadow-tinted
otherwise. -/
def resolveCellColor (state mask : Buffer) (simWidth : ℕ) (cx cy : ℕ) : ℕ × ℕ × ℕ :=
  let idx := cy * simWidth + cx
  if ¬ state (idx * 2) = 1 then VOID_BLACK
  else if state (idx * 2 + 1) < visibilityDelay cx cy then VOID_BLACK
  else if 128 < mask idx then WHITE
  else SHADOW

/-- One pixel of `CanvasRenderer.render`: aspect correction, bounds check,
underline, idle wobble displacement, state lookup, visibility delay, and
the mask-intensity color choice. -/
def renderPixel (simWidth simHeight : ℕ) (state mask : Buffer)
    (ux uy uw uh : ℚ) (wobbleEnabled : Bool) (timeSlot : ℕ)
    (canvasWidth canvasHeight px py : ℕ) : ℕ × ℕ × ℕ :=
  let uv := aspectUV canvasWidth canvasHeight simWidth simHeight px py
  if uv.1 < 0 ∨ uv.1 > 1 ∨ uv.2 < 0 ∨ uv.2 > 1 then VOID_BLACK
  else if inUnderline ux uy uw uh uv then WHITE
  else
    let cx0 := min (Int.toNat ⌊uv.1 * simWidth⌋) (simWidth - 1)
    let cy0 := min (Int.toNat ⌊uv.2 * simHeight⌋) (simHeight - 1)
    let wob := wobbleCell simWidth simHeight wobbleEnabled timeSlot cx0 cy0
    resolveCellColor state mask simWidth wob.1 wob.2

/-- Claim C9 — counterexample.  For an 800×600 canvas and a 256×256
simulation the canvas is wider than the simulation, so the source takes the
horizontal-letterbox branch: the claim's "taller canvas letterboxed
vertically" is false at this input (even though the pixel does map
outside). -/
theorem claim_C9_counterexample :
    ¬ (mapsOutside 800 600 256 256 0 0 ∧ letterboxesVertically 800 600 256 256) := by
  rintro ⟨_, hv⟩
  unfold letterboxesVertically at hv
  norm_num at hv

/-- Claim C9 (amended): for an 800×600 canvas and a square 256×256
simulation, the pixel at output UV (0,0) maps outside the [0,1]
simulation-space (its corrected uvX is -1/6) and is therefore rendered as
background — the canvas being wider than the simulation, it is letterboxed
horizontally, not vertically. -/
theorem claim_C9 :
    mapsOutside 800 600 256 256 0 0 ∧
      renderPixel 256 256 (fun _ => 0) (fun _ => 0) 0 0 0 0 false 0 800 600 0 0
        = VOID_BLACK ∧
      ¬ letterboxesVertically 800 600 256 256 ∧
      (aspectUV 800 600 256 256 0 0).1 = -(1/6) := by
  have huv : aspectUV 800 600 256 256 0 0 = (-(1/6 : ℚ), 7/100) := by
    unfold aspectUV
    norm_num
  refine ⟨?_, ?_, ?_, ?_⟩
  · unfold mapsOutside
    rw [huv]
    norm_num
  · unfold renderPixel
    rw [huv]
    norm_num
  · unfold letterboxesVertically
    norm_num
  · rw [huv]

/-! ### Shadow-only rendering after updateMask -/

theorem updateMask_maskData (s : CanvasGrowthSimulation) (img : Buffer) (iw ih : ℕ) :
    (s.updateMask img iw ih).maskData = fun idx =>
      if idx < s.width * s.height then
        if 64 < sampleIntensity img iw ih s.width s.height (idx % s.width) (idx / s.width)
        then 1 else 0
      else s.maskData idx := by
  unfold CanvasGrowthSimulation.updateMask
  by_cases hc : s.isComplete <;> simp [hc]

theorem wobbleCell_bounds (w h : ℕ) (wob : Bool) (t cx0 cy0 : ℕ)
    (hx : cx0 ≤ w - 1) (hy : cy0 ≤ h - 1) :
    (wobbleCell w h wob t cx0 cy0).1 ≤ w - 1 ∧ (wobbleCell w h wob t cx0 cy0).2 ≤ h - 1 := by
  unfold wobbleCell
  dsimp only
  split
  · split
    · split
      · rename_i hd
        exact ⟨by omega, hy⟩
      · split
        · rename_i hd
          exact ⟨by omega, hy⟩
        · split
          · rename_i hd
            exact ⟨hx, by omega⟩
          · split
            · rename_i hd
              exact ⟨hx, by omega⟩
            · exact ⟨hx, hy⟩
    · exact ⟨hx, hy⟩
  · exact ⟨hx, hy⟩

theorem resolveCellColor_not_white (state mask : Buffer) (w : ℕ) (cx cy : ℕ)
    (hmask : ¬ 128 < mask (cy * w + cx)) :
    resolveCellColor state mask w cx cy = VOID_BLACK ∨
      resolveCellColor state mask w cx cy = SHADOW := by
  unfold resolveCellColor
  dsimp only
  rw [if_neg hmask]
  split
  · left; rfl
  · split
    · left; rfl
    · right; rfl

theorem cell_index_lt (w h a b : ℕ) (hw : 0 < w) (hh : 0 < h)
    (ha : a ≤ w - 1) (hb : b ≤ h - 1) : b * w + a < w * h := by
  have hb1 : b + 1 ≤ h := by omega
  have h1 : (b + 1) * w ≤ h * w := Nat.mul_le_mul_right w hb1
  have h2 : (b + 1) * w = b * w + w := by ring
  have h3 : h * w = w * h := Nat.mul_comm h w
  have ha' : a < w := by omega
  omega

theorem renderPixel_no_white (w h : ℕ) (state mask : Buffer)
    (ux uy uw uh : ℚ) (wob : Bool) (t cW cH px py : ℕ)
    (hw : 0 < w) (hh : 0 < h)
    (hmask : ∀ idx, idx < w * h → ¬ 128 < mask idx)
    (hnu : ¬ inUnderline ux uy uw uh (aspectUV cW cH w h px py)) :
    renderPixel w h state mask ux uy uw uh wob t cW cH px py = VOID_BLACK ∨
      renderPixel w h state mask ux uy uw uh wob t cW cH px py = SHADOW := by
  unfold renderPixel
  dsimp only
  by_cases hout : (aspectUV cW cH w h px py).1 < 0 ∨ (aspectUV cW cH w h px py).1 > 1 ∨
      (aspectUV cW cH w h px py).2 < 0 ∨ (aspectUV cW cH w h px py).2 > 1
  · rw [if_pos hout]
    left
    rfl
  · rw [if_neg hout, if_neg hnu]
    set cx0 := min (Int.toNat ⌊(aspectUV cW cH w h px py).1 * w⌋) (w - 1) with hcx0
    set cy0 := min (Int.toNat ⌊(aspectUV cW cH w h px py).2 * h⌋) (h - 1) with hcy0
    obtain ⟨hbx, hby⟩ := wobbleCell_bounds w h wob t cx0 cy0
      (Nat.min_le_right _ _) (Nat.min_le_right _ _)
    apply resolveCellColor_not_white
    apply hmask
    exact cell_index_lt w h _ _ hw hh hbx hby

/-- Claim C10: after updateMask on the canvas backend every mask cell is 0
or 1 (intensities thresholded at > 64), and consequently every pixel the
renderer resolves outside the underline region is painted background or the
secondary shadow tint — never the primary foreground white — regardless of
the original intensities. -/
theorem claim_C10 (s : CanvasGrowthSimulation) (img : Buffer) (iw ih : ℕ)
    (hw : 0 < s.width) (hh : 0 < s.height) :
    (∀ idx, idx < s.width * s.height →
      ((s.updateMask img iw ih).maskData idx = 0 ∨
        (s.updateMask img iw ih).maskData idx = 1)) ∧
    (∀ (state : Buffer) (ux uy uw uh : ℚ) (wob : Bool) (t cW cH px py : ℕ),
      ¬ inUnderline ux uy uw uh (aspectUV cW cH s.width s.height px py) →
      (renderPixel s.width s.height state (s.updateMask img iw ih).maskData
          ux uy uw uh wob t cW cH px py = VOID_BLACK ∨
        renderPixel s.width s.height state (s.updateMask img iw ih).maskData
          ux uy uw uh wob t cW cH px py = SHADOW)) := by
  have hbin : ∀ idx, idx < s.width * s.height →
      ((s.updateMask img iw ih).maskData idx = 0 ∨
        (s.updateMask img iw ih).maskData idx = 1) := by
    intro idx hidx
    rw [updateMask_maskData]
    simp only [if_pos hidx]
    split
    · right; rfl
    · left; rfl
  refine ⟨hbin, ?_⟩
  intro state ux uy uw uh wob t cW cH px py hnu
  apply renderPixel_no_white s.width s.height state _ ux uy uw uh wob t cW cH px py hw hh
    _ hnu
  intro idx hidx
  rcases hbin idx hidx with hb | hb <;> omega

/-- Claim C10 — witness: on a 1×1 simulation whose mask was updated from a
full-intensity image, a concrete non-underline pixel resolves to a
background-or-shadow color. -/
theorem claim_C10_witness :
    ((0 : ℕ) < 1 ∧ (0 : ℕ) < 1) ∧
      ¬ inUnderline 0 0 0 0 (aspectUV 1 1 1 1 0 0) ∧
      (renderPixel 1 1 (fun _ => 0) ((onCanvasSim.updateMask (fun _ => 255) 1 1).maskData)
          0 0 0 0 false 0 1 1 0 0 = VOID_BLACK ∨
        renderPixel 1 1 (fun _ => 0) ((onCanvasSim.updateMask (fun _ => 255) 1 1).maskData)
          0 0 0 0 false 0 1 1 0 0 = SHADOW) := by
  have hnu : ¬ inUnderline 0 0 0 0 (aspectUV 1 1 1 1 0 0) := by
    unfold inUnderline
    norm_num
  exact ⟨⟨Nat.one_pos, Nat.one_pos⟩, hnu,
    (claim_C10 onCanvasSim (fun _ => 255) 1 1 Nat.one_pos Nat.one_pos).2
      (fun _ => 0) 0 0 0 0 false 0 1 1 0 0 hnu⟩

/-! ### Backend parity -/

theorem torusIdx_lt (w h : ℕ) (hw : 0 < w) (hh : 0 < h) (nx ny : ℤ) :
    torusIdx w h nx ny < w * h := by
  unfold torusIdx
  have hwne : (w : ℤ) ≠ 0 := by exact_mod_cast hw.ne'
  have hhne : (h : ℤ) ≠ 0 := by exact_mod_cast hh.ne'
  have hex0 : 0 ≤ nx.emod w := Int.emod_nonneg nx hwne
  have hexw : nx.emod w < w := Int.emod_lt_of_pos nx (by exact_mod_cast hw)
  have hey0 : 0 ≤ ny.emod h := Int.emod_nonneg ny hhne
  have heyh : ny.emod h < h := Int.emod_lt_of_pos ny (by exact_mod_cast hh)
  have h1 : (ny.emod h + 1) * w ≤ (h : ℤ) * w :=
    mul_le_mul_of_nonneg_right (by omega) (by positivity)
  have h2 : (ny.emod h + 1) * w = ny.emod h * w + w := by ring
  have h3 : ((w * h : ℕ) : ℤ) = (h : ℤ) * w := by push_cast; ring
  have h4 : (0 : ℤ) ≤ ny.emod h * w := mul_nonneg hey0 (by positivity)
  omega

/-- The spec step rule computes the same next cell from corresponding flat
and `vec2` buffers whenever the two masks agree on which cells are
eligible. -/
theorem specNext_corr (current : Buffer) (vcur : VecBuffer) (maskC maskG : Buffer)
    (w h x y : ℕ) (hx : x < w) (hy : y < h)
    (hmask : ∀ i, i < w * h → (maskC i = 0 ↔ maskG i = 0))
    (hcorr : ∀ i, i < w * h → (current (i * 2), current (i * 2 + 1)) = vcur i) :
    specNextCellFlat current maskC w h x y = specNextCellVec vcur maskG w h x y := by
  have hw : 0 < w := Nat.zero_lt_of_lt hx
  have hh : 0 < h := Nat.zero_lt_of_lt hy
  have hidx : y * w + x < w * h := cell_index_lt w h x y hw hh (by omega) (by omega)
  have hpair := hcorr (y * w + x) hidx
  have h1 : current ((y * w + x) * 2) = (vcur (y * w + x)).1 := by
    rw [← hpair]
  have h2 : current ((y * w + x) * 2 + 1) = (vcur (y * w + x)).2 := by
    rw [← hpair]
  have hex : (∃ p ∈ mooreOffsets,
      current (torusIdx w h ((x : ℤ) + p.1) ((y : ℤ) + p.2) * 2) = 1) ↔
      (∃ p ∈ mooreOffsets,
        (vcur (torusIdx w h ((x : ℤ) + p.1) ((y : ℤ) + p.2))).1 = 1) := by
    refine exists_congr fun p => and_congr_right fun _ => ?_
    have ht := torusIdx_lt w h hw hh ((x : ℤ) + p.1) ((y : ℤ) + p.2)
    have := hcorr _ ht
    rw [show current (torusIdx w h ((x : ℤ) + p.1) ((y : ℤ) + p.2) * 2)
        = (vcur (torusIdx w h ((x : ℤ) + p.1) ((y : ℤ) + p.2))).1 from by rw [← this]]
  unfold specNextCellFlat specNextCellVec
  dsimp only
  by_cases hm : maskC (y * w + x) = 0
  · rw [if_pos hm, if_pos ((hmask _ hidx).mp hm)]
  · rw [if_neg hm, if_neg (fun hg => hm ((hmask _ hidx).mpr hg))]
    by_cases hon : current ((y * w + x) * 2) = 1
    · rw [if_pos hon, if_pos (h1 ▸ hon), h2]
    · rw [if_neg hon, if_neg (fun hv => hon (h1.symm ▸ hv))]
      by_cases hnb : ∃ p ∈ mooreOffsets,
          current (torusIdx w h ((x : ℤ) + p.1) ((y : ℤ) + p.2) * 2) = 1
      · rw [if_pos hnb, if_pos (hex.mp hnb)]
      · rw [if_neg hnb, if_neg (fun hv => hnb (hex.mpr hv))]

theorem canvasStep_counters (s : CanvasGrowthSimulation) (hc : s.isComplete = false) :
    s.step.stepCount = s.stepCount + 1 ∧
      s.step.isComplete = decide (60 < s.stepCount + 1) := by
  constructor <;> simp [CanvasGrowthSimulation.step, hc]

theorem gpuStep_counters (s : GrowthSimulation) (hc : s.isComplete = false) :
    s.step.stepCount = s.stepCount + 1 ∧
      s.step.isComplete = decide (60 < s.stepCount + 1) := by
  constructor <;> simp [GrowthSimulation.step, hc]

/-- Correspondence between a canvas simulation and a WebGPU simulation:
equal dimensions and progress flags, masks agreeing on eligibility, and the
same (on, age) grid in the current buffers. -/
def SimCorr (s : CanvasGrowthSimulation) (g : GrowthSimulation) : Prop :=
  s.width = g.width ∧ s.height = g.height ∧ s.isComplete = g.isComplete ∧
    s.stepCount = g.stepCount ∧
    (∀ i, i < s.width * s.height → (s.maskData i = 0 ↔ g.maskData i = 0)) ∧
    (∀ i, i < s.width * s.height →
      (s.getCurrentState (i * 2), s.getCurrentState (i * 2 + 1)) = g.getCurrentState i)

theorem simCorr_step (s : CanvasGrowthSimulation) (g : GrowthSimulation)
    (hc : SimCorr s g) : SimCorr s.step g.step := by
  obtain ⟨hww, hhh, hcc, hsc, hmask, hstate⟩ := hc
  by_cases hcp : s.isComplete
  · have hs : s.step = s := by simp [CanvasGrowthSimulation.step, hcp]
    have hg : g.step = g := by simp [GrowthSimulation.step, ← hcc, hcp]
    rw [hs, hg]
    exact ⟨hww, hhh, hcc, hsc, hmask, hstate⟩
  · have hcf : s.isComplete = false := by simpa using hcp
    have hgf : g.isComplete = false := by rw [← hcc]; exact hcf
    obtain ⟨hsw, hsh, hsm⟩ := canvasStep_preserves s
    obtain ⟨hgw, hgh, hgm⟩ := gpuStep_preserves g
    obtain ⟨hsc1, hsc2⟩ := canvasStep_counters s hcf
    obtain ⟨hgc1, hgc2⟩ := gpuStep_counters g hgf
    refine ⟨by rw [hsw, hgw, hww], by rw [hsh, hgh, hhh], ?_, ?_, ?_, ?_⟩
    · rw [hsc2, hgc2, hsc]
    · rw [hsc1, hgc1, hsc]
    · intro i hi
      rw [hsm, hgm]
      exact hmask i (by rwa [hsw, hsh] at hi)
    · intro i hi
      rw [hsw, hsh] at hi
      rw [canvasStep_current s hcf, gpuStep_current g hgf]
      have hw : 0 < s.width := by
        rcases Nat.eq_zero_or_pos s.width with h0 | h0
        · rw [h0] at hi; omega
        · exact h0
      have hh : 0 < s.height := by
        rcases Nat.eq_zero_or_pos s.height with h0 | h0
        · rw [h0] at hi; simp at hi
        · exact h0
      have hx : i % s.width < s.width := Nat.mod_lt i hw
      have hy : i / s.width < s.height := Nat.div_lt_of_lt_mul hi
      have h20 : i * 2 < s.width * s.height * 2 := by omega
      have h21 : i * 2 + 1 < s.width * s.height * 2 := by omega
      have hd0 : i * 2 / 2 = i := by omega
      have hd1 : (i * 2 + 1) / 2 = i := by omega
      have hm0 : i * 2 % 2 = 0 := by omega
      have hm1 : (i * 2 + 1) % 2 = 1 := by omega
      have hflat : (canvasNextBuffer s.getCurrentState s.maskData s.width s.height
            (if s.currentBuffer = 0 then s.state1 else s.state0) (i * 2),
          canvasNextBuffer s.getCurrentState s.maskData s.width s.height
            (if s.currentBuffer = 0 then s.state1 else s.state0) (i * 2 + 1))
          = stepCellCanvas s.getCurrentState s.maskData s.width s.height
              (i % s.width) (i / s.width) := by
        unfold canvasNextBuffer
        rw [if_pos h20, if_pos h21]
        dsimp only
        rw [hd0, hd1, hm0, hm1]
        simp
      rw [show (i : ℕ) = i by rfl]
      rw [hflat]
      unfold gpuNextBuffer
      rw [if_pos (by rwa [← hww, ← hhh])]
      rw [stepCellCanvas_eq_spec _ _ _ _ _ _ hx hy,
        wgslMainCell_eq_spec _ _ _ _ _ _ (by rwa [← hww]) (by rwa [← hww, ← hhh])]
      rw [← hww, ← hhh]
      exact specNext_corr s.getCurrentState g.getCurrentState s.maskData g.maskData
        s.width s.height (i % s.width) (i / s.width) hx hy hmask hstate

theorem simCorr_iterate (s : CanvasGrowthSimulation) (g : GrowthSimulation)
    (hc : SimCorr s g) :
    ∀ k, SimCorr ((CanvasGrowthSimulation.step)^[k] s) ((GrowthSimulation.step)^[k] g) := by
  intro k
  induction k with
  | zero => simpa using hc
  | succ k ih =>
    rw [Function.iterate_succ_apply', Function.iterate_succ_apply']
    exact simCorr_step _ _ ih

/-- Seed application writes the same (on, age) values through the flat and
the `vec2` layout. -/
theorem applySeeds_corr (rand : ℕ → ℚ) (comps : List (List ℕ)) :
    ∀ (k : ℕ) (stF : Buffer) (stV : VecBuffer),
      (∀ i, (stF (i * 2), stF (i * 2 + 1)) = stV i) →
      ∀ i, ((applySeedsFlat rand k comps stF) (i * 2),
          (applySeedsFlat rand k comps stF) (i * 2 + 1))
        = applySeedsVec rand k comps stV i := by
  induction comps with
  | nil =>
    intro k stF stV hcorr i
    exact hcorr i
  | cons c rest ih =>
    intro k stF stV hcorr i
    unfold applySeedsFlat applySeedsVec
    apply ih
    intro j
    unfold writeSeedFlat writeSeedVec
    by_cases hj : j = c.getD (randomIdx (rand k) c.length) 0
    · subst hj
      simp
    · rw [if_neg hj]
      have hne := hj
      rw [if_neg (by omega), if_neg (by omega), if_neg (by omega), if_neg (by omega)]
      exact hcorr j

theorem canvas_iterate_dims (s : CanvasGrowthSimulation) :
    ∀ k, ((CanvasGrowthSimulation.step)^[k] s).width = s.width ∧
      ((CanvasGrowthSimulation.step)^[k] s).height = s.height := by
  intro k
  induction k with
  | zero => simp
  | succ k ih =>
    rw [Function.iterate_succ_apply']
    obtain ⟨h1, h2, _⟩ := canvasStep_preserves ((CanvasGrowthSimulation.step)^[k] s)
    exact ⟨by rw [h1, ih.1], by rw [h2, ih.2]⟩

/-- Claim C1 (amended): when every sampled mask intensity is either 0 or
above 128 — so that the canvas backend's intensity mask and the WebGPU
backend's binarized (threshold 64) mask agree on eligibility and on the
seed threshold — and both backends consume the same random draws, loading
the mask into both freshly constructed backends via setMaskFromImage and
stepping them in lockstep yields identical (on, age) grids at every step. -/
theorem claim_C1 (w h iw ih : ℕ) (img : Buffer) (rand : ℕ → ℚ)
    (hint : ∀ i, i < w * h →
      (sampleIntensity img iw ih w h (i % w) (i / w) = 0 ∨
        128 < sampleIntensity img iw ih w h (i % w) (i / w))) :
    ∀ k i, i < w * h →
      (((CanvasGrowthSimulation.step)^[k]
            ((CanvasGrowthSimulation.init w h).setMaskFromImage rand img iw ih)).getCurrentState (i * 2),
          ((CanvasGrowthSimulation.step)^[k]
            ((CanvasGrowthSimulation.init w h).setMaskFromImage rand img iw ih)).getCurrentState (i * 2 + 1))
        = ((GrowthSimulation.step)^[k]
            ((GrowthSimulation.init w h).setMaskFromImage rand img iw ih)).getCurrentState i := by
  have hscan : (fun idx => decide (128 <
        (if idx < w * h then sampleIntensity img iw ih w h (idx % w) (idx / w) else 0)))
      = (fun idx => decide ((if idx < w * h then
          (if 64 < sampleIntensity img iw ih w h (idx % w) (idx / w) then 1 else 0)
          else (0 : ℕ)) = 1)) := by
    funext idx
    by_cases hlt : idx < w * h
    · rcases hint idx hlt with h0 | h0 <;> simp [hlt, h0] <;> omega
    · simp [hlt]
  have hfill : (fun idx => !(decide
        ((if idx < w * h then sampleIntensity img iw ih w h (idx % w) (idx / w) else 0) ≤ 128)))
      = (fun idx => !(decide ((if idx < w * h then
          (if 64 < sampleIntensity img iw ih w h (idx % w) (idx / w) then 1 else 0)
          else (0 : ℕ)) = 0))) := by
    funext idx
    by_cases hlt : idx < w * h
    · rcases hint idx hlt with h0 | h0 <;> simp [hlt, h0] <;> omega
    · simp [hlt]
  have hsC : ((CanvasGrowthSimulation.init w h).setMaskFromImage rand img iw ih).getCurrentState
      = applySeedsFlat rand 0
          ((placeSeedsScan w h
            (fun idx => decide (128 <
              (if idx < w * h then sampleIntensity img iw ih w h (idx % w) (idx / w) else 0)))
            (fun idx => !(decide
              ((if idx < w * h then sampleIntensity img iw ih w h (idx % w) (idx / w) else 0) ≤ 128)))).2)
          (fun _ => 0) := rfl
  have hsG : ((GrowthSimulation.init w h).setMaskFromImage rand img iw ih).getCurrentState
      = applySeedsVec rand 0
          ((placeSeedsScan w h
            (fun idx => decide ((if idx < w * h then
              (if 64 < sampleIntensity img iw ih w h (idx % w) (idx / w) then 1 else 0)
              else (0 : ℕ)) = 1))
            (fun idx => !(decide ((if idx < w * h then
              (if 64 < sampleIntensity img iw ih w h (idx % w) (idx / w) then 1 else 0)
              else (0 : ℕ)) = 0)))).2)
          (fun _ => (0, 0)) := rfl
  have hcorr0 : SimCorr ((CanvasGrowthSimulation.init w h).setMaskFromImage rand img iw ih)
      ((GrowthSimulation.init w h).setMaskFromImage rand img iw ih) := by
    refine ⟨rfl, rfl, rfl, rfl, ?_, ?_⟩
    · intro i hi
      show (if i < w * h then sampleIntensity img iw ih w h (i % w) (i / w) else 0) = 0 ↔
        (if i < w * h then
          (if 64 < sampleIntensity img iw ih w h (i % w) (i / w) then 1 else 0) else 0) = 0
      have hi' : i < w * h := hi
      rw [if_pos hi', if_pos hi']
      rcases hint i hi' with h0 | h0 <;> simp [h0] <;> omega
    · intro i hi
      rw [hsC, hsG, hscan, hfill]
      exact applySeeds_corr rand _ 0 (fun _ => 0) (fun _ => (0, 0)) (fun _ => rfl) i
  intro k i hi
  have hiter := simCorr_iterate _ _ hcorr0 k
  obtain ⟨_, _, _, _, _, hstate⟩ := hiter
  apply hstate
  obtain ⟨hwk, hhk⟩ := canvas_iterate_dims
    ((CanvasGrowthSimulation.init w h).setMaskFromImage rand img iw ih) k
  rw [hwk, hhk]
  exact hi

/-- A 16×16 RGBA image whose red channel is 255 on two disjoint 3×3 blocks
(columns/rows 2–4 and 10–12) and 0 elsewhere. -/
def twoBlockImage : Buffer := fun i =>
  if i % 4 = 0 ∧
      ((2 ≤ i / 4 % 16 ∧ i / 4 % 16 ≤ 4 ∧ 2 ≤ i / 4 / 16 ∧ i / 4 / 16 ≤ 4) ∨
        (10 ≤ i / 4 % 16 ∧ i / 4 % 16 ≤ 12 ∧ 10 ≤ i / 4 / 16 ∧ i / 4 / 16 ≤ 12))
  then 255 else 0

/-- Claim C1 — witness: the 16×16 mask with two disjoint 3×3 eligible
blocks satisfies the intensity restriction, and after 10 lockstep steps the
two backends agree at the cell (2, 2) inside the first block. -/
theorem claim_C1_witness :
    (∀ i, i < 16 * 16 →
      (sampleIntensity twoBlockImage 16 16 16 16 (i % 16) (i / 16) = 0 ∨
        128 < sampleIntensity twoBlockImage 16 16 16 16 (i % 16) (i / 16))) ∧
    (((CanvasGrowthSimulation.step)^[10]
          ((CanvasGrowthSimulation.init 16 16).setMaskFromImage (fun _ => 0) twoBlockImage 16 16)).getCurrentState (34 * 2),
        ((CanvasGrowthSimulation.step)^[10]
          ((CanvasGrowthSimulation.init 16 16).setMaskFromImage (fun _ => 0) twoBlockImage 16 16)).getCurrentState (34 * 2 + 1))
      = ((GrowthSimulation.step)^[10]
          ((GrowthSimulation.init 16 16).setMaskFromImage (fun _ => 0) twoBlockImage 16 16)).getCurrentState 34 :=
  ⟨by decide, claim_C1 16 16 16 16 twoBlockImage (fun _ => 0) (by decide) 10 34 (by decide)⟩

/-- Claim C1 — counterexample.  On a 1×1 grid whose single pixel has
intensity 100, the canvas backend stores intensity 100 but places no seed
(100 is not above the seed threshold 128), while the WebGPU backend
binarizes the mask to 1 (100 > 64) and seeds the cell: immediately after
`setMaskFromImage` — i.e. after the same number of step() calls, zero — the
(on, age) grids differ, refuting the claim for arbitrary mask images. -/
theorem claim_C1_counterexample :
    ((((CanvasGrowthSimulation.init 1 1).setMaskFromImage (fun _ => 0) (fun _ => 100) 1 1).getCurrentState (0 * 2),
        (((CanvasGrowthSimulation.init 1 1).setMaskFromImage (fun _ => 0) (fun _ => 100) 1 1)).getCurrentState (0 * 2 + 1))
      ≠ ((GrowthSimulation.init 1 1).setMaskFromImage (fun _ => 0) (fun _ => 100) 1 1).getCurrentState 0) ∧
    (((CanvasGrowthSimulation.init 1 1).setMaskFromImage (fun _ => 0) (fun _ => 100) 1 1).getCurrentState 0 = 0) ∧
    (((GrowthSimulation.init 1 1).setMaskFromImage (fun _ => 0) (fun _ => 100) 1 1).getCurrentState 0 = (1, 0)) := by
  have hcv : ((CanvasGrowthSimulation.init 1 1).setMaskFromImage
      (fun _ => 0) (fun _ => 100) 1 1).getCurrentState 0 = 0 := by decide
  have hcv1 : ((CanvasGrowthSimulation.init 1 1).setMaskFromImage
      (fun _ => 0) (fun _ => 100) 1 1).getCurrentState 1 = 0 := by decide
  have hg : ((GrowthSimulation.init 1 1).setMaskFromImage
      (fun _ => 0) (fun _ => 100) 1 1).getCurrentState 0 = (1, 0) := by
    show applySeedsVec (fun _ => 0) 0
        ((placeSeedsScan 1 1
          (fun idx => decide ((if idx < 1 * 1 then
            (if 64 < sampleIntensity (fun _ => 100) 1 1 1 1 (idx % 1) (idx / 1) then 1 else 0)
            else (0 : ℕ)) = 1))
          (fun idx => !(decide ((if idx < 1 * 1 then
            (if 64 < sampleIntensity (fun _ => 100) 1 1 1 1 (idx % 1) (idx / 1) then 1 else 0)
            else (0 : ℕ)) = 0)))).2)
        (fun _ => (0, 0)) 0 = (1, 0)
    have hff : floodFillLoop 1 1 (fun idx => decide (idx = 0))
        [((0 : ℤ), (0 : ℤ))] ∅ [] = ({0}, [0]) := by
      rw [floodFillLoop]
      norm_num [cellIdx]
      rw [floodFillLoop]
      norm_num
      rw [floodFillLoop]
      norm_num
      rw [floodFillLoop]
      norm_num
      rw [floodFillLoop]
      norm_num
      rw [floodFillLoop]
    have hscan : placeSeedsScan 1 1
        (fun idx => decide ((if idx < 1 * 1 then
          (if 64 < sampleIntensity (fun _ => 100) 1 1 1 1 (idx % 1) (idx / 1) then 1 else 0)
          else (0 : ℕ)) = 1))
        (fun idx => !(decide ((if idx < 1 * 1 then
          (if 64 < sampleIntensity (fun _ => 100) 1 1 1 1 (idx % 1) (idx / 1) then 1 else 0)
          else (0 : ℕ)) = 0))) = ({0}, [[0]]) := by
      unfold placeSeedsScan
      have hff' : floodFillLoop 1 1 (fun idx => decide (idx = 0)) [(0 : ℤ × ℤ)] ∅ []
          = ({0}, [0]) := by
        rw [show ((0 : ℤ × ℤ)) = ((0 : ℤ), (0 : ℤ)) from rfl]
        exact hff
      rw [show List.range 1 = [0] from rfl]
      simp only [List.foldl_cons, List.foldl_nil]
      norm_num [scanCell, sampleIntensity, hff, hff']
    rw [hscan]
    norm_num [applySeedsVec, writeSeedVec, randomIdx]
  refine ⟨?_, hcv, hg⟩
  show (((CanvasGrowthSimulation.init 1 1).setMaskFromImage (fun _ => 0) (fun _ => 100) 1 1).getCurrentState 0,
      ((CanvasGrowthSimulation.init 1 1).setMaskFromImage (fun _ => 0) (fun _ => 100) 1 1).getCurrentState 1) ≠ _
  rw [hcv, hcv1, hg]
  decide

/-! ### Connected components, from the spec's words

The spec's Seed Placer counts "4-connected (cardinal-only) components of
cells with intensity > 128".  The mathematical side is set up from those
words: cardinal adjacency between eligible in-range cells, its
reflexive-transitive closure as reachability, a computable reachability set
obtained by saturating neighbour expansion, and the component count as the
number of eligible cells that are least in their own reachability class. -/

/-- Cardinal (4-connected) adjacency between two eligible in-range cells of
a `w × h` grid with flat indexing. -/
def adj4 (w h : ℕ) (elig : ℕ → Bool) (i j : ℕ) : Prop :=
  i < w * h ∧ j < w * h ∧ elig i = true ∧ elig j = true ∧
    ((i % w = j % w ∧ (i / w + 1 = j / w ∨ j / w + 1 = i / w)) ∨
      (i / w = j / w ∧ (i % w + 1 = j % w ∨ j % w + 1 = i % w)))

instance (w h : ℕ) (elig : ℕ → Bool) (i j : ℕ) : Decidable (adj4 w h elig i j) := by
  unfold adj4
  infer_instance

theorem adj4_symm (w h : ℕ) (elig : ℕ → Bool) {i j : ℕ}
    (ha : adj4 w h elig i j) : adj4 w h elig j i := by
  obtain ⟨h1, h2, h3, h4, h5⟩ := ha
  exact ⟨h2, h1, h4, h3, by tauto⟩

/-- One expansion step of the reachability set: add every in-range cell
adjacent to the set. -/
def adjStep (w h : ℕ) (elig : ℕ → Bool) (S : Finset ℕ) : Finset ℕ :=
  S ∪ (Finset.range (w * h)).filter (fun j => ∃ i ∈ S, adj4 w h elig i j)

/-- The cells reachable from `s` through eligible cardinal steps, computed
by saturating `adjStep` (w*h expansions always reach the fixpoint). -/
def reachSet (w h : ℕ) (elig : ℕ → Bool) (s : ℕ) : Finset ℕ :=
  (adjStep w h elig)^[w * h] {s}

/-- The number of 4-connected components of the eligible cells, from the
spec's words: every component is counted exactly once, via its least cell
index. -/
def componentCount (w h : ℕ) (elig : ℕ → Bool) : ℕ :=
  ((Finset.range (w * h)).filter
    (fun i => elig i = true ∧ ∀ j ∈ reachSet w h elig i, i ≤ j)).card

/-- Least element of a list of naturals (0 for the empty list). -/
def listMin : List ℕ → ℕ
  | [] => 0
  | [a] => a
  | a :: b :: rest => min a (listMin (b :: rest))

theorem listMin_mem : ∀ (l : List ℕ), l ≠ [] → listMin l ∈ l
  | [], h => absurd rfl h
  | [a], _ => by simp [listMin]
  | a :: b :: rest, _ => by
    rcases Nat.le_total a (listMin (b :: rest)) with hle | hle
    · simp [listMin, Nat.min_eq_left hle]
    · have := listMin_mem (b :: rest) (by simp)
      simp only [listMin, Nat.min_eq_right hle]
      exact List.mem_cons_of_mem a this

theorem listMin_le : ∀ (l : List ℕ), ∀ j ∈ l, listMin l ≤ j
  | [], j, hj => by simp at hj
  | [a], j, hj => by
    simp at hj
    simp [listMin, hj]
  | a :: b :: rest, j, hj => by
    rcases List.mem_cons.mp hj with h | h
    · simp only [listMin, h]
      exact Nat.min_le_left _ _
    · have := listMin_le (b :: rest) j h
      simp only [listMin]
      exact le_trans (Nat.min_le_right _ _) this

theorem cellIdx_natCast (w x y : ℕ) : cellIdx w ((x : ℤ), (y : ℤ)) = y * w + x := by
  unfold cellIdx
  rw [show ((y : ℤ) * w + x) = ((y * w + x : ℕ) : ℤ) from by push_cast; ring]
  exact Int.toNat_natCast _

theorem inGrid_coords (w h : ℕ) (p : ℤ × ℤ) (hp : inGrid w h p) :
    ∃ a b : ℕ, p = ((a : ℤ), (b : ℤ)) ∧ a < w ∧ b < h := by
  obtain ⟨h1, h2, h3, h4⟩ := hp
  refine ⟨p.1.toNat, p.2.toNat, ?_, by omega, by omega⟩
  have e1 : ((p.1.toNat : ℤ)) = p.1 := Int.toNat_of_nonneg h1
  have e2 : ((p.2.toNat : ℤ)) = p.2 := Int.toNat_of_nonneg h3
  rw [Prod.ext_iff]
  exact ⟨e1.symm, e2.symm⟩

theorem cellIdx_decomp (w h a b : ℕ) (ha : a < w) (hb : b < h) :
    cellIdx w ((a : ℤ), (b : ℤ)) % w = a ∧ cellIdx w ((a : ℤ), (b : ℤ)) / w = b ∧
      cellIdx w ((a : ℤ), (b : ℤ)) < w * h := by
  have hw : 0 < w := Nat.zero_lt_of_lt ha
  rw [cellIdx_natCast]
  refine ⟨?_, ?_, cell_index_lt w h a b hw (Nat.zero_lt_of_lt hb) (by omega) (by omega)⟩
  · rw [Nat.mul_comm b w, Nat.mul_add_mod]
    exact Nat.mod_eq_of_lt ha
  · rw [Nat.mul_comm b w, Nat.mul_add_div hw, Nat.div_eq_of_lt ha, Nat.add_zero]

/-- Two in-grid eligible cells whose coordinates differ by one cardinal
step are `adj4`-adjacent. -/
theorem adj4_of_nbr (w h : ℕ) (elig : ℕ → Bool) (p q : ℤ × ℤ)
    (hp : inGrid w h p) (hq : inGrid w h q)
    (hep : elig (cellIdx w p) = true) (heq : elig (cellIdx w q) = true)
    (hmem : q ∈ nbrsOf p.1 p.2) : adj4 w h elig (cellIdx w p) (cellIdx w q) := by
  obtain ⟨a, b, hpe, ha, hb⟩ := inGrid_coords w h p hp
  obtain ⟨c, d, hqe, hc, hd⟩ := inGrid_coords w h q hq
  subst hpe
  subst hqe
  obtain ⟨hma, hda, hlta⟩ := cellIdx_decomp w h a b ha hb
  obtain ⟨hmc, hdc, hltc⟩ := cellIdx_decomp w h c d hc hd
  refine ⟨hlta, hltc, hep, heq, ?_⟩
  simp only [nbrsOf, List.mem_cons, List.not_mem_nil, or_false, Prod.mk.injEq] at hmem
  rcases hmem with ⟨e1, e2⟩ | ⟨e1, e2⟩ | ⟨e1, e2⟩ | ⟨e1, e2⟩
  · right
    constructor
    · rw [hda, hdc]; omega
    · rw [hma, hmc]; omega
  · right
    constructor
    · rw [hda, hdc]; omega
    · rw [hma, hmc]; omega
  · left
    constructor
    · rw [hma, hmc]; omega
    · rw [hda, hdc]; omega
  · left
    constructor
    · rw [hma, hmc]; omega
    · rw [hda, hdc]; omega

/-- Conversely, an `adj4` step lands on a coordinate pair among the four
cardinal pushes of the first cell. -/
theorem adj4_to_nbr (w h : ℕ) (elig : ℕ → Bool) (i j : ℕ)
    (ha : adj4 w h elig i j) :
    (((j % w : ℕ) : ℤ), ((j / w : ℕ) : ℤ)) ∈ nbrsOf ((i % w : ℕ) : ℤ) ((i / w : ℕ) : ℤ) ∧
      inGrid w h (((j % w : ℕ) : ℤ), ((j / w : ℕ) : ℤ)) ∧
      cellIdx w (((j % w : ℕ) : ℤ), ((j / w : ℕ) : ℤ)) = j := by
  obtain ⟨hi, hj, hei, hej, hcase⟩ := ha
  have hw : 0 < w := by
    rcases Nat.eq_zero_or_pos w with h0 | h0
    · rw [h0] at hi; omega
    · exact h0
  have hh : 0 < h := by
    rcases Nat.eq_zero_or_pos h with h0 | h0
    · rw [h0] at hi; simp at hi
    · exact h0
  have hjx : j % w < w := Nat.mod_lt j hw
  have hjy : j / w < h := Nat.div_lt_of_lt_mul hj
  have hing : inGrid w h (((j % w : ℕ) : ℤ), ((j / w : ℕ) : ℤ)) := by
    unfold inGrid
    dsimp only
    exact ⟨by positivity, by exact_mod_cast hjx, by positivity, by exact_mod_cast hjy⟩
  refine ⟨?_, hing, ?_⟩
  · simp only [nbrsOf, List.mem_cons, List.not_mem_nil, or_false, Prod.mk.injEq]
    rcases hcase with ⟨e1, e2 | e2⟩ | ⟨e1, e2 | e2⟩
    · right; right; right
      constructor
      · exact_mod_cast e1.symm
      · rw [show ((j / w : ℕ) : ℤ) = ((i / w + 1 : ℕ) : ℤ) from by rw [e2]]
        push_cast
        ring
    · right; right; left
      constructor
      · exact_mod_cast e1.symm
      · rw [show ((i / w : ℕ) : ℤ) = ((j / w + 1 : ℕ) : ℤ) from by rw [e2]]
        push_cast
        ring
    · right; left
      constructor
      · rw [show ((j % w : ℕ) : ℤ) = ((i % w + 1 : ℕ) : ℤ) from by rw [e2]]
        push_cast
        ring
      · exact_mod_cast e1.symm
    · left
      constructor
      · rw [show ((i % w : ℕ) : ℤ) = ((j % w + 1 : ℕ) : ℤ) from by rw [e2]]
        push_cast
        ring
      · exact_mod_cast e1.symm
  · rw [cellIdx_natCast, Nat.mul_comm]
    exact Nat.div_add_mod j w

/-- A stack entry is handled once it is out of bounds, ineligible, or
recorded in the visited set. -/
def processed (w h : ℕ) (elig : ℕ → Bool) (V : Finset ℕ) (p : ℤ × ℤ) : Prop :=
  ¬ inGrid w h p ∨ elig (cellIdx w p) = false ∨ cellIdx w p ∈ V

theorem processed_mono (w h : ℕ) (elig : ℕ → Bool) {V V' : Finset ℕ}
    (hVV : V ⊆ V') (p : ℤ × ℤ) (hp : processed w h elig V p) :
    processed w h elig V' p := by
  rcases hp with h | h | h
  · exact Or.inl h
  · exact Or.inr (Or.inl h)
  · exact Or.inr (Or.inr (hVV h))

/-- Main specification of the flood-fill loop: it returns the input
component extended by a fresh, duplicate-free batch `d` of eligible
in-range cells reachable from the root, records exactly those cells in the
visited set, and leaves every stack entry — and every cardinal neighbour of
every newly marked cell — handled. -/
theorem floodFillLoop_spec (w h : ℕ) (elig : ℕ → Bool) (r : ℕ)
    (stack : List (ℤ × ℤ)) (visited : Finset ℕ) (comp : List ℕ) :
    (∀ p ∈ stack, inGrid w h p → elig (cellIdx w p) = true →
      Relation.ReflTransGen (adj4 w h elig) r (cellIdx w p)) →
    ∃ d : List ℕ,
      (floodFillLoop w h elig stack visited comp).2 = comp ++ d ∧
      (floodFillLoop w h elig stack visited comp).1 = visited ∪ d.toFinset ∧
      d.Nodup ∧
      (∀ j ∈ d, j ∉ visited) ∧
      (∀ j ∈ d, j < w * h ∧ elig j = true ∧
        Relation.ReflTransGen (adj4 w h elig) r j ∧
        (∀ q ∈ nbrsOf ((j % w : ℕ) : ℤ) ((j / w : ℕ) : ℤ),
          processed w h elig (floodFillLoop w h elig stack visited comp).1 q)) ∧
      (∀ p ∈ stack, processed w h elig (floodFillLoop w h elig stack visited comp).1 p) := by
  induction stack, visited, comp using floodFillLoop.induct w h elig with
  | case1 visited comp =>
    intro _
    refine ⟨[], ?_, ?_, ?_, ?_, ?_, ?_⟩ <;> simp [floodFillLoop]
  | case2 visited comp x y rest hb ih =>
    intro hstack
    have hred : floodFillLoop w h elig ((x, y) :: rest) visited comp
        = floodFillLoop w h elig rest visited comp := by
      rw [floodFillLoop]
      rw [if_pos hb]
    obtain ⟨d, h1, h2, h3, h4, h5, h6⟩ :=
      ih (fun p hp => hstack p (List.mem_cons_of_mem _ hp))
    rw [hred]
    refine ⟨d, h1, h2, h3, h4, h5, ?_⟩
    intro p hp
    rcases List.mem_cons.mp hp with hpe | hpr
    · subst hpe
      left
      unfold inGrid
      dsimp only
      omega
    · exact h6 p hpr
  | case3 visited comp x y rest hb hv ih =>
    intro hstack
    have hred : floodFillLoop w h elig ((x, y) :: rest) visited comp
        = floodFillLoop w h elig rest visited comp := by
      rw [floodFillLoop]
      rw [if_neg hb, if_pos hv]
    obtain ⟨d, h1, h2, h3, h4, h5, h6⟩ :=
      ih (fun p hp => hstack p (List.mem_cons_of_mem _ hp))
    rw [hred]
    refine ⟨d, h1, h2, h3, h4, h5, ?_⟩
    intro p hp
    rcases List.mem_cons.mp hp with hpe | hpr
    · subst hpe
      rcases hv with hmem | hfalse
      · right; right
        rw [h2]
        exact Finset.mem_union_left _ hmem
      · right; left
        exact hfalse
    · exact h6 p hpr
  | case4 visited comp x y rest hb hv ih =>
    intro hstack
    have hred : floodFillLoop w h elig ((x, y) :: rest) visited comp
        = floodFillLoop w h elig
            ((x, y + 1) :: (x, y - 1) :: (x + 1, y) :: (x - 1, y) :: rest)
            (insert (cellIdx w (x, y)) visited) (comp ++ [cellIdx w (x, y)]) := by
      rw [floodFillLoop]
      rw [if_neg hb, if_neg hv]
    have hin : inGrid w h (x, y) := by
      unfold inGrid
      dsimp only
      push_neg at hb
      omega
    push_neg at hv
    obtain ⟨hnv, hne⟩ := hv
    have helig : elig (cellIdx w (x, y)) = true := by
      cases hqe : elig (cellIdx w (x, y))
      · exact absurd hqe hne
      · rfl
    have hreach : Relation.ReflTransGen (adj4 w h elig) r (cellIdx w (x, y)) :=
      hstack (x, y) (List.mem_cons_self _ _) hin helig
    obtain ⟨a, b, hab, haw, hbh⟩ := inGrid_coords w h (x, y) hin
    have hxa : x = (a : ℤ) := congrArg Prod.fst hab
    have hyb : y = (b : ℤ) := congrArg Prod.snd hab
    subst hxa
    subst hyb
    obtain ⟨hmod, hdiv, hlt⟩ := cellIdx_decomp w h a b haw hbh
    have hstack' : ∀ p ∈ (((a : ℤ), (b : ℤ) + 1) :: ((a : ℤ), (b : ℤ) - 1) ::
        ((a : ℤ) + 1, (b : ℤ)) :: ((a : ℤ) - 1, (b : ℤ)) :: rest),
        inGrid w h p → elig (cellIdx w p) = true →
        Relation.ReflTransGen (adj4 w h elig) r (cellIdx w p) := by
      intro p hp hpin hpe
      have hnb : p ∈ nbrsOf (a : ℤ) (b : ℤ) ∨ p ∈ rest := by
        simp only [nbrsOf, List.mem_cons, List.not_mem_nil, or_false] at hp ⊢
        tauto
      rcases hnb with hnb | hpr
      · exact Relation.ReflTransGen.tail hreach
          (adj4_of_nbr w h elig ((a : ℤ), (b : ℤ)) p hin hpin helig hpe hnb)
      · exact hstack p (List.mem_cons_of_mem _ hpr) hpin hpe
    obtain ⟨d, h1, h2, h3, h4, h5, h6⟩ := ih hstack'
    rw [hred]
    refine ⟨cellIdx w ((a : ℤ), (b : ℤ)) :: d, ?_, ?_, ?_, ?_, ?_, ?_⟩
    · rw [h1, List.append_assoc]
      rfl
    · rw [h2, List.toFinset_cons]
      ext j
      simp only [Finset.mem_union, Finset.mem_insert]
      tauto
    · rw [List.nodup_cons]
      refine ⟨?_, h3⟩
      intro hmem
      exact (h4 _ hmem) (Finset.mem_insert_self _ _)
    · intro j hj
      rcases List.mem_cons.mp hj with he | hm
      · subst he
        exact hnv
      · exact fun hjv => (h4 j hm) (Finset.mem_insert_of_mem hjv)
    · intro j hj
      rcases List.mem_cons.mp hj with he | hm
      · subst he
        refine ⟨hlt, helig, hreach, ?_⟩
        intro q hq
        apply h6
        rw [hmod, hdiv] at hq
        simp only [nbrsOf, List.mem_cons, List.not_mem_nil, or_false] at hq
        simp only [List.mem_cons]
        tauto
      · exact h5 j hm
    · intro p hp
      rcases List.mem_cons.mp hp with he | hm
      · subst he
        right; right
        rw [h2]
        exact Finset.mem_union_left _ (Finset.mem_insert_self _ _)
      · apply h6
        simp only [List.mem_cons]
        tauto

/-- A flood fill started at an unvisited eligible in-grid cell, with the
visited set closed under eligible adjacency, returns exactly the
4-connected component of the start cell. -/
theorem floodFill_component (w h : ℕ) (elig : ℕ → Bool) (x y : ℤ) (visited : Finset ℕ)
    (hin : inGrid w h (x, y)) (helig : elig (cellIdx w (x, y)) = true)
    (hnv : cellIdx w (x, y) ∉ visited)
    (hclosed : ∀ i ∈ visited, ∀ j, adj4 w h elig i j → j ∈ visited) :
    (∀ j, j ∈ (floodFillLoop w h elig [(x, y)] visited []).2 ↔
      Relation.ReflTransGen (adj4 w h elig) (cellIdx w (x, y)) j) ∧
    (floodFillLoop w h elig [(x, y)] visited []).1
      = visited ∪ (floodFillLoop w h elig [(x, y)] visited []).2.toFinset ∧
    (floodFillLoop w h elig [(x, y)] visited []).2.Nodup ∧
    (∀ j ∈ (floodFillLoop w h elig [(x, y)] visited []).2, j ∉ visited) ∧
    (floodFillLoop w h elig [(x, y)] visited []).2 ≠ [] := by
  obtain ⟨d, h1, h2, h3, h4, h5, h6⟩ :=
    floodFillLoop_spec w h elig (cellIdx w (x, y)) [(x, y)] visited []
      (by
        intro p hp _ _
        rcases List.mem_cons.mp hp with hpe | hpr
        · subst hpe
          exact Relation.ReflTransGen.refl
        · simp at hpr)
  rw [List.nil_append] at h1
  have hroot : cellIdx w (x, y) ∈ d := by
    rcases h6 (x, y) (List.mem_cons_self _ _) with hng | hef | hmem
    · exact absurd hin hng
    · rw [helig] at hef
      exact absurd hef (by simp)
    · rw [h2] at hmem
      rcases Finset.mem_union.mp hmem with hv | hd
      · exact absurd hv hnv
      · exact List.mem_toFinset.mp hd
  have hiff : ∀ j, j ∈ (floodFillLoop w h elig [(x, y)] visited []).2 ↔
      Relation.ReflTransGen (adj4 w h elig) (cellIdx w (x, y)) j := by
    intro j
    rw [h1]
    constructor
    · intro hj
      exact (h5 j hj).2.2.1
    · intro hreach
      induction hreach with
      | refl => exact hroot
      | tail hrb hbc ihb =>
        rename_i b c
        have ihb' := ihb
        obtain ⟨hnbr, hing, hcid⟩ := adj4_to_nbr w h elig b c hbc
        rcases (h5 b ihb').2.2.2 _ hnbr with hng | hef | hmem
        · exact absurd hing hng
        · rw [hcid] at hef
          rw [hbc.2.2.2.1] at hef
          exact absurd hef (by simp)
        · rw [hcid] at hmem
          rw [h2] at hmem
          rcases Finset.mem_union.mp hmem with hcv | hcd
          · have hbv : b ∈ visited := hclosed c hcv b (adj4_symm w h elig hbc)
            exact absurd hbv (h4 b ihb')
          · exact List.mem_toFinset.mp hcd
  refine ⟨hiff, by rw [h1]; exact h2, by rw [h1]; exact h3, by rw [h1]; exact h4, ?_⟩
  rw [h1]
  intro hemp
  rw [hemp] at hroot
  simp at hroot

/-- A well-formed component: a nonempty duplicate-free list that is exactly
the 4-connected component of some eligible in-range root. -/
def compWF (w h : ℕ) (elig : ℕ → Bool) (c : List ℕ) : Prop :=
  c ≠ [] ∧ c.Nodup ∧ ∃ root, root < w * h ∧ elig root = true ∧
    ∀ j, (j ∈ c ↔ Relation.ReflTransGen (adj4 w h elig) root j)

/-- Invariant of the `placeSeeds` scan: every found component is
well-formed, the visited set is exactly their union, and they are pairwise
disjoint. -/
def ScanInv (w h : ℕ) (elig : ℕ → Bool) (acc : Finset ℕ × List (List ℕ)) : Prop :=
  (∀ c ∈ acc.2, compWF w h elig c) ∧
    (∀ j, j ∈ acc.1 ↔ ∃ c ∈ acc.2, j ∈ c) ∧
    List.Pairwise (fun c1 c2 => ∀ j ∈ c1, j ∉ c2) acc.2

theorem scanInv_closed (w h : ℕ) (elig : ℕ → Bool) (acc : Finset ℕ × List (List ℕ))
    (hinv : ScanInv w h elig acc) :
    ∀ i ∈ acc.1, ∀ j, adj4 w h elig i j → j ∈ acc.1 := by
  obtain ⟨hwf, hchar, _⟩ := hinv
  intro i hi j hadj
  obtain ⟨c, hc, hic⟩ := (hchar i).mp hi
  obtain ⟨hne, hnd, root, hrlt, hrel, hcls⟩ := hwf c hc
  have hrj : Relation.ReflTransGen (adj4 w h elig) root j :=
    Relation.ReflTransGen.tail ((hcls i).mp hic) hadj
  exact (hchar j).mpr ⟨c, hc, (hcls j).mpr hrj⟩

theorem scanCell_inv (w h : ℕ) (elig : ℕ → Bool) (acc : Finset ℕ × List (List ℕ))
    (x y : ℕ) (hx : x < w) (hy : y < h) (hinv : ScanInv w h elig acc) :
    ScanInv w h elig (scanCell w h elig elig acc x y) ∧
      acc.1 ⊆ (scanCell w h elig elig acc x y).1 ∧
      (elig (y * w + x) = true → y * w + x ∈ (scanCell w h elig elig acc x y).1) := by
  unfold scanCell
  dsimp only
  by_cases hcond : elig (y * w + x) = true ∧ y * w + x ∉ acc.1
  · rw [if_pos hcond]
    have hcid : cellIdx w ((x : ℤ), (y : ℤ)) = y * w + x := cellIdx_natCast w x y
    have hing : inGrid w h ((x : ℤ), (y : ℤ)) := by
      unfold inGrid
      dsimp only
      exact ⟨by positivity, by exact_mod_cast hx, by positivity, by exact_mod_cast hy⟩
    have helig : elig (cellIdx w ((x : ℤ), (y : ℤ))) = true := by
      rw [hcid]
      exact hcond.1
    have hnv : cellIdx w ((x : ℤ), (y : ℤ)) ∉ acc.1 := by
      rw [hcid]
      exact hcond.2
    obtain ⟨hiff, hvis, hnd, hfresh, hnemp⟩ :=
      floodFill_component w h elig x y acc.1 hing helig hnv
        (scanInv_closed w h elig acc hinv)
    have hlen : 0 < (floodFillLoop w h elig [((x : ℤ), (y : ℤ))] acc.1 []).2.length :=
      List.length_pos.mpr hnemp
    rw [if_pos hlen]
    obtain ⟨hwf, hchar, hpw⟩ := hinv
    have hrootmem : y * w + x ∈ (floodFillLoop w h elig [((x : ℤ), (y : ℤ))] acc.1 []).2 := by
      rw [hiff (y * w + x), ← hcid]
    refine ⟨⟨?_, ?_, ?_⟩, ?_, ?_⟩
    · intro c hc
      rcases List.mem_append.mp hc with hold | hnew
      · exact hwf c hold
      · rw [List.mem_singleton] at hnew
        subst hnew
        refine ⟨hnemp, hnd, y * w + x,
          cell_index_lt w h x y (Nat.zero_lt_of_lt hx) (Nat.zero_lt_of_lt hy)
            (by omega) (by omega), hcond.1, ?_⟩
        intro j
        rw [hiff j, hcid]
    · intro j
      rw [hvis]
      simp only [Finset.mem_union, List.mem_toFinset, List.mem_append, List.mem_singleton]
      rw [hchar j]
      constructor
      · rintro (⟨c, hc, hjc⟩ | hjn)
        · exact ⟨c, Or.inl hc, hjc⟩
        · exact ⟨_, Or.inr rfl, hjn⟩
      · rintro ⟨c, hc | hc, hjc⟩
        · exact Or.inl ⟨c, hc, hjc⟩
        · subst hc
          exact Or.inr hjc
    · rw [List.pairwise_append]
      refine ⟨hpw, by simp, ?_⟩
      intro c hc c' hc' j hjc
      rw [List.mem_singleton] at hc'
      subst hc'
      intro hjc'
      exact (hfresh j hjc') ((hchar j).mpr ⟨c, hc, hjc⟩)
    · rw [hvis]
      exact Finset.subset_union_left
    · intro _
      rw [hvis]
      exact Finset.mem_union_right _ (List.mem_toFinset.mpr hrootmem)
  · rw [if_neg hcond]
    refine ⟨hinv, subset_rfl, ?_⟩
    intro he
    by_cases hm : y * w + x ∈ acc.1
    · exact hm
    · exact absurd ⟨he, hm⟩ hcond

theorem scanFold_inv (w h : ℕ) (elig : ℕ → Bool) (pts : List (ℕ × ℕ)) :
    ∀ acc, (∀ p ∈ pts, p.1 < w ∧ p.2 < h) → ScanInv w h elig acc →
      ScanInv w h elig
        (List.foldl (fun a p => scanCell w h elig elig a p.1 p.2) acc pts) ∧
      acc.1 ⊆ (List.foldl (fun a p => scanCell w h elig elig a p.1 p.2) acc pts).1 ∧
      (∀ p ∈ pts, elig (p.2 * w + p.1) = true →
        p.2 * w + p.1 ∈ (List.foldl (fun a p => scanCell w h elig elig a p.1 p.2) acc pts).1) := by
  induction pts with
  | nil =>
    intro acc _ hinv
    refine ⟨hinv, subset_rfl, ?_⟩
    intro p hp
    simp at hp
  | cons p rest ih =>
    intro acc hb hinv
    obtain ⟨hbp1, hbp2⟩ := hb p (List.mem_cons_self _ _)
    obtain ⟨hinv1, hsub1, hcov1⟩ := scanCell_inv w h elig acc p.1 p.2 hbp1 hbp2 hinv
    obtain ⟨hinv2, hsub2, hcov2⟩ :=
      ih (scanCell w h elig elig acc p.1 p.2)
        (fun q hq => hb q (List.mem_cons_of_mem _ hq)) hinv1
    rw [List.foldl_cons]
    refine ⟨hinv2, subset_trans hsub1 hsub2, ?_⟩
    intro q hq he
    rcases List.mem_cons.mp hq with hqe | hqr
    · subst hqe
      exact hsub2 (hcov1 he)
    · exact hcov2 q hqr he

/-- The scan order of `placeSeeds`: all cells, `y` outer and `x` inner. -/
def scanPoints (w h : ℕ) : List (ℕ × ℕ) :=
  (List.range h).bind (fun y => (List.range w).map (fun x => (x, y)))

theorem foldl_bind_eq {α β γ : Type} (l : List α) (g : α → List β) (f : γ → β → γ)
    (init : γ) :
    List.foldl f init (l.bind g)
      = List.foldl (fun a x => List.foldl f a (g x)) init l := by
  induction l generalizing init with
  | nil => rfl
  | cons a t iha =>
    show List.foldl f init (g a ++ t.bind g)
      = List.foldl (fun a x => List.foldl f a (g x)) init (a :: t)
    rw [List.foldl_append, List.foldl_cons]
    exact iha _

theorem placeSeedsScan_eq_fold (w h : ℕ) (se e : ℕ → Bool) :
    placeSeedsScan w h se e
      = List.foldl (fun a p => scanCell w h se e a p.1 p.2) (∅, []) (scanPoints w h) := by
  unfold placeSeedsScan scanPoints
  rw [foldl_bind_eq]
  congr 1
  funext acc y
  rw [List.foldl_map]

theorem mem_scanPoints (w h : ℕ) (p : ℕ × ℕ) :
    p ∈ scanPoints w h ↔ p.1 < w ∧ p.2 < h := by
  unfold scanPoints
  rw [List.mem_bind]
  constructor
  · rintro ⟨y, hy, hp⟩
    rw [List.mem_map] at hp
    obtain ⟨x, hx, hpe⟩ := hp
    subst hpe
    exact ⟨List.mem_range.mp hx, List.mem_range.mp hy⟩
  · rintro ⟨h1, h2⟩
    refine ⟨p.2, List.mem_range.mpr h2, ?_⟩
    rw [List.mem_map]
    exact ⟨p.1, List.mem_range.mpr h1, rfl⟩

/-- Final state of the `placeSeeds` scan: the components are well-formed,
pairwise disjoint, and cover every eligible cell. -/
theorem placeSeedsScan_spec (w h : ℕ) (elig : ℕ → Bool) :
    (∀ c ∈ (placeSeedsScan w h elig elig).2, compWF w h elig c) ∧
      List.Pairwise (fun c1 c2 => ∀ j ∈ c1, j ∉ c2) (placeSeedsScan w h elig elig).2 ∧
      (∀ i, i < w * h → elig i = true → ∃ c ∈ (placeSeedsScan w h elig elig).2, i ∈ c) := by
  have h0 : ScanInv w h elig (∅, []) := by
    refine ⟨by simp, by simp, by simp⟩
  obtain ⟨hinv, hsub, hcov⟩ :=
    scanFold_inv w h elig (scanPoints w h) (∅, [])
      (fun p hp => (mem_scanPoints w h p).mp hp) h0
  rw [placeSeedsScan_eq_fold]
  refine ⟨hinv.1, hinv.2.2, ?_⟩
  intro i hi he
  have hw : 0 < w := by
    rcases Nat.eq_zero_or_pos w with h0w | h0w
    · rw [h0w] at hi; omega
    · exact h0w
  have hp : (i % w, i / w) ∈ scanPoints w h :=
    (mem_scanPoints w h _).mpr ⟨Nat.mod_lt i hw, Nat.div_lt_of_lt_mul hi⟩
  have hdm : i / w * w + i % w = i := by
    rw [Nat.mul_comm]
    exact Nat.div_add_mod i w
  have hmem := hcov (i % w, i / w) hp (by rw [hdm]; exact he)
  rw [hdm] at hmem
  exact (hinv.2.1 i).mp hmem

theorem adjStep_subset (w h : ℕ) (elig : ℕ → Bool) (S : Finset ℕ) :
    S ⊆ adjStep w h elig S :=
  Finset.subset_union_left

theorem reachSet_sound (w h : ℕ) (elig : ℕ → Bool) (s : ℕ) :
    ∀ j ∈ reachSet w h elig s, Relation.ReflTransGen (adj4 w h elig) s j := by
  have haux : ∀ k, ∀ j ∈ (adjStep w h elig)^[k] {s},
      Relation.ReflTransGen (adj4 w h elig) s j := by
    intro k
    induction k with
    | zero =>
      intro j hj
      rw [Function.iterate_zero_apply, Finset.mem_singleton] at hj
      subst hj
      exact Relation.ReflTransGen.refl
    | succ k ih =>
      intro j hj
      rw [Function.iterate_succ_apply'] at hj
      rcases Finset.mem_union.mp hj with hjk | hjf
      · exact ih j hjk
      · obtain ⟨_, i, hiS, hadj⟩ := Finset.mem_filter.mp hjf
        exact Relation.ReflTransGen.tail (ih i hiS) hadj
  exact haux (w * h)

theorem reachSet_range (w h : ℕ) (elig : ℕ → Bool) (s : ℕ) (hs : s < w * h) :
    ∀ k, (adjStep w h elig)^[k] {s} ⊆ Finset.range (w * h) := by
  intro k
  induction k with
  | zero =>
    rw [Function.iterate_zero_apply]
    intro j hj
    rw [Finset.mem_singleton] at hj
    subst hj
    exact Finset.mem_range.mpr hs
  | succ k ih =>
    rw [Function.iterate_succ_apply']
    exact Finset.union_subset ih (Finset.filter_subset _ _)

theorem reachSet_fix (w h : ℕ) (elig : ℕ → Bool) (s : ℕ) (hs : s < w * h) :
    adjStep w h elig (reachSet w h elig s) = reachSet w h elig s := by
  by_contra hne
  have hnofix : ∀ m, m ≤ w * h →
      adjStep w h elig ((adjStep w h elig)^[m] {s}) ≠ (adjStep w h elig)^[m] {s} := by
    intro m hm hfix
    apply hne
    have hN : reachSet w h elig s = (adjStep w h elig)^[m] {s} := by
      unfold reachSet
      rw [show w * h = (w * h - m) + m from by omega, Function.iterate_add_apply]
      exact Function.iterate_fixed hfix _
    rw [hN]
    exact hfix
  have hcard : ∀ k, k ≤ w * h → k + 1 ≤ ((adjStep w h elig)^[k] {s}).card := by
    intro k
    induction k with
    | zero =>
      intro _
      rw [Function.iterate_zero_apply]
      simp
    | succ k ih =>
      intro hk
      have hk' : k ≤ w * h := by omega
      have h1 := ih hk'
      have hssub : (adjStep w h elig)^[k] {s} ⊂ (adjStep w h elig)^[k + 1] {s} := by
        rw [Function.iterate_succ_apply']
        exact Finset.ssubset_iff_subset_ne.mpr
          ⟨adjStep_subset w h elig _, fun he => hnofix k hk' he.symm⟩
      have h2 := Finset.card_lt_card hssub
      omega
  have hle := Finset.card_le_card (reachSet_range w h elig s hs (w * h))
  rw [Finset.card_range] at hle
  have := hcard (w * h) le_rfl
  unfold reachSet at hne
  omega

theorem reachSet_complete (w h : ℕ) (elig : ℕ → Bool) (s : ℕ) (hs : s < w * h) :
    ∀ j, Relation.ReflTransGen (adj4 w h elig) s j → j ∈ reachSet w h elig s := by
  have hself : s ∈ reachSet w h elig s := by
    have haux : ∀ k, s ∈ (adjStep w h elig)^[k] {s} := by
      intro k
      induction k with
      | zero => simp
      | succ k ih =>
        rw [Function.iterate_succ_apply']
        exact adjStep_subset w h elig _ ih
    exact haux (w * h)
  intro j hreach
  induction hreach with
  | refl => exact hself
  | tail hrb hbc ihb =>
    rename_i b c
    rw [← reachSet_fix w h elig s hs]
    apply Finset.mem_union_right
    rw [Finset.mem_filter]
    exact ⟨Finset.mem_range.mpr hbc.2.1, b, ihb, hbc⟩

theorem reach_elig (w h : ℕ) (elig : ℕ → Bool) {r j : ℕ}
    (hreach : Relation.ReflTransGen (adj4 w h elig) r j)
    (her : elig r = true) (hrlt : r < w * h) : elig j = true ∧ j < w * h := by
  induction hreach with
  | refl => exact ⟨her, hrlt⟩
  | tail hrb hbc ihb => exact ⟨hbc.2.2.2.1, hbc.2.1⟩

/-- A pairwise-disjoint cover of the eligible cells by well-formed
components has exactly `componentCount` members: each component is counted
once via its least cell. -/
theorem comps_length_eq_componentCount (w h : ℕ) (elig : ℕ → Bool)
    (comps : List (List ℕ))
    (hwf : ∀ c ∈ comps, compWF w h elig c)
    (hdisj : List.Pairwise (fun c1 c2 => ∀ j ∈ c1, j ∉ c2) comps)
    (hcover : ∀ i, i < w * h → elig i = true → ∃ c ∈ comps, i ∈ c) :
    comps.length = componentCount w h elig := by
  have hsymm : Symmetric (Relation.ReflTransGen (adj4 w h elig)) :=
    Relation.ReflTransGen.symmetric (fun _ _ hab => adj4_symm w h elig hab)
  have hmemprops : ∀ c ∈ comps, ∀ j ∈ c, elig j = true ∧ j < w * h := by
    intro c hc j hj
    obtain ⟨hne, hnd, root, hrlt, hrel, hcls⟩ := hwf c hc
    exact reach_elig w h elig ((hcls j).mp hj) hrel hrlt
  have hmin_mem : ∀ c ∈ comps, listMin c ∈ c := by
    intro c hc
    exact listMin_mem c (hwf c hc).1
  -- each component's least element passes the filter
  have hforward : ∀ c ∈ comps, listMin c ∈ (Finset.range (w * h)).filter
      (fun i => elig i = true ∧ ∀ j ∈ reachSet w h elig i, i ≤ j) := by
    intro c hc
    obtain ⟨hne, hnd, root, hrlt, hrel, hcls⟩ := hwf c hc
    obtain ⟨hme, hmlt⟩ := hmemprops c hc (listMin c) (hmin_mem c hc)
    rw [Finset.mem_filter]
    refine ⟨Finset.mem_range.mpr hmlt, hme, ?_⟩
    intro j hj
    have hmj : Relation.ReflTransGen (adj4 w h elig) (listMin c) j :=
      reachSet_sound w h elig _ j hj
    have hrm : Relation.ReflTransGen (adj4 w h elig) root (listMin c) :=
      (hcls _).mp (hmin_mem c hc)
    have hrj : Relation.ReflTransGen (adj4 w h elig) root j :=
      Relation.ReflTransGen.trans hrm hmj
    exact listMin_le c j ((hcls j).mpr hrj)
  -- every filtered cell is some component's least element
  have hbackward : ∀ i ∈ (Finset.range (w * h)).filter
      (fun i => elig i = true ∧ ∀ j ∈ reachSet w h elig i, i ≤ j),
      ∃ c ∈ comps, i = listMin c := by
    intro i hi
    rw [Finset.mem_filter] at hi
    obtain ⟨hir, hie, himin⟩ := hi
    have hilt : i < w * h := Finset.mem_range.mp hir
    obtain ⟨c, hc, hic⟩ := hcover i hilt hie
    obtain ⟨hne, hnd, root, hrlt, hrel, hcls⟩ := hwf c hc
    refine ⟨c, hc, ?_⟩
    have hrm : Relation.ReflTransGen (adj4 w h elig) root (listMin c) :=
      (hcls _).mp (hmin_mem c hc)
    have hri : Relation.ReflTransGen (adj4 w h elig) root i := (hcls i).mp hic
    have him : Relation.ReflTransGen (adj4 w h elig) i (listMin c) :=
      Relation.ReflTransGen.trans (hsymm hri) hrm
    have h1 : i ≤ listMin c :=
      himin _ (reachSet_complete w h elig i hilt _ him)
    have h2 : listMin c ≤ i := listMin_le c i hic
    omega
  have hset : (Finset.range (w * h)).filter
      (fun i => elig i = true ∧ ∀ j ∈ reachSet w h elig i, i ≤ j)
      = (comps.map listMin).toFinset := by
    ext i
    rw [List.mem_toFinset, List.mem_map]
    constructor
    · intro hi
      obtain ⟨c, hc, hce⟩ := hbackward i hi
      exact ⟨c, hc, hce.symm⟩
    · rintro ⟨c, hc, hce⟩
      subst hce
      exact hforward c hc
  have hnodup : (comps.map listMin).Nodup := by
    have hp2 : List.Pairwise (fun c1 c2 => listMin c1 ≠ listMin c2) comps := by
      apply List.Pairwise.imp_of_mem ?_ hdisj
      intro c1 c2 h1 h2 hdis heq
      exact hdis (listMin c1) (listMin_mem c1 (hwf c1 h1).1)
        (by rw [heq]; exact listMin_mem c2 (hwf c2 h2).1)
    exact List.pairwise_map.mpr hp2
  unfold componentCount
  rw [hset, List.toFinset_card_of_nodup hnodup, List.length_map]

/-! ### Seed application and the on-cell count -/

/-- The seeded cell of each component, in order, as chosen by the random
draws (the `k`-th component consumes the `k`-th draw). -/
def seedsList (rand : ℕ → ℚ) (k : ℕ) (comps : List (List ℕ)) : List ℕ :=
  match comps with
  | [] => []
  | c :: rest => c.getD (randomIdx (rand k) c.length) 0 :: seedsList rand (k + 1) rest

theorem randomIdx_lt (r : ℚ) (len : ℕ) (h0 : 0 ≤ r) (h1 : r < 1) (hlen : 0 < len) :
    randomIdx r len < len := by
  unfold randomIdx
  have hmul : r * len < len := by
    calc r * len < 1 * len := by
          apply mul_lt_mul_of_pos_right h1
          exact_mod_cast hlen
      _ = len := one_mul _
  have hfl : ⌊r * (len : ℚ)⌋ < (len : ℤ) := Int.floor_lt.mpr (by exact_mod_cast hmul)
  have hf0 : (0 : ℤ) ≤ ⌊r * (len : ℚ)⌋ := Int.floor_nonneg.mpr (by positivity)
  omega

theorem seedPick_mem (c : List ℕ) (r : ℚ) (h0 : 0 ≤ r) (h1 : r < 1) (hne : c ≠ []) :
    c.getD (randomIdx r c.length) 0 ∈ c := by
  have hlen : 0 < c.length := List.length_pos.mpr hne
  have hlt : randomIdx r c.length < c.length := randomIdx_lt r c.length h0 h1 hlen
  rw [List.getD_eq_getElem?_getD, List.getElem?_eq_getElem hlt]
  simp only [Option.getD_some]
  exact List.getElem_mem hlt

theorem seedsList_mem (rand : ℕ → ℚ) (hr : ∀ k, 0 ≤ rand k ∧ rand k < 1) :
    ∀ (comps : List (List ℕ)) (k : ℕ), (∀ c ∈ comps, c ≠ []) →
      ∀ s ∈ seedsList rand k comps, ∃ c ∈ comps, s ∈ c := by
  intro comps
  induction comps with
  | nil =>
    intro k _ s hs
    simp [seedsList] at hs
  | cons c rest ih =>
    intro k hne s hs
    rw [seedsList, List.mem_cons] at hs
    rcases hs with hs | hs
    · subst hs
      exact ⟨c, List.mem_cons_self _ _,
        seedPick_mem c (rand k) (hr k).1 (hr k).2 (hne c (List.mem_cons_self _ _))⟩
    · obtain ⟨c', hc', hsc'⟩ := ih (k + 1) (fun d hd => hne d (List.mem_cons_of_mem _ hd)) s hs
      exact ⟨c', List.mem_cons_of_mem _ hc', hsc'⟩

theorem seedsList_nodup (rand : ℕ → ℚ) (hr : ∀ k, 0 ≤ rand k ∧ rand k < 1) :
    ∀ (comps : List (List ℕ)) (k : ℕ), (∀ c ∈ comps, c ≠ []) →
      List.Pairwise (fun c1 c2 => ∀ j ∈ c1, j ∉ c2) comps →
      (seedsList rand k comps).Nodup := by
  intro comps
  induction comps with
  | nil =>
    intro k _ _
    simp [seedsList]
  | cons c rest ih =>
    intro k hne hpw
    rw [seedsList, List.nodup_cons]
    obtain ⟨hhead, htail⟩ := List.pairwise_cons.mp hpw
    constructor
    · intro hmem
      obtain ⟨c', hc', hsc'⟩ :=
        seedsList_mem rand hr rest (k + 1) (fun d hd => hne d (List.mem_cons_of_mem _ hd))
          _ hmem
      exact hhead c' hc' _
        (seedPick_mem c (rand k) (hr k).1 (hr k).2 (hne c (List.mem_cons_self _ _))) hsc'
    · exact ih (k + 1) (fun d hd => hne d (List.mem_cons_of_mem _ hd)) htail

theorem seedsList_length (rand : ℕ → ℚ) :
    ∀ (comps : List (List ℕ)) (k : ℕ), (seedsList rand k comps).length = comps.length := by
  intro comps
  induction comps with
  | nil => intro k; rfl
  | cons c rest ih =>
    intro k
    rw [seedsList, List.length_cons, List.length_cons, ih]

/-- Evaluation of the seeded state buffer: a cell is on iff it was seeded,
and every seeded cell has age 0. -/
theorem applySeedsFlat_eval (rand : ℕ → ℚ) :
    ∀ (comps : List (List ℕ)) (k : ℕ) (st : Buffer) (i : ℕ),
      (applySeedsFlat rand k comps st) (i * 2)
          = (if i ∈ seedsList rand k comps then 1 else st (i * 2)) ∧
        (applySeedsFlat rand k comps st) (i * 2 + 1)
          = (if i ∈ seedsList rand k comps then 0 else st (i * 2 + 1)) := by
  intro comps
  induction comps with
  | nil =>
    intro k st i
    simp [applySeedsFlat, seedsList]
  | cons c rest ih =>
    intro k st i
    rw [applySeedsFlat, seedsList]
    obtain ⟨ih1, ih2⟩ := ih (k + 1) (writeSeedFlat st (c.getD (randomIdx (rand k) c.length) 0)) i
    rw [ih1, ih2]
    by_cases hmem : i ∈ seedsList rand (k + 1) rest
    · rw [if_pos hmem, if_pos hmem, if_pos (List.mem_cons_of_mem _ hmem),
        if_pos (List.mem_cons_of_mem _ hmem)]
      exact ⟨rfl, rfl⟩
    · rw [if_neg hmem, if_neg hmem]
      by_cases his : i = c.getD (randomIdx (rand k) c.length) 0
      · subst his
        rw [if_pos (List.mem_cons_self _ _), if_pos (List.mem_cons_self _ _)]
        unfold writeSeedFlat
        rw [if_pos rfl, if_neg (by omega), if_pos rfl]
        exact ⟨rfl, rfl⟩
      · have hnc : i ∉ (c.getD (randomIdx (rand k) c.length) 0 :: seedsList rand (k + 1) rest) := by
          rw [List.mem_cons]
          rintro (he | hm)
          · exact his he
          · exact hmem hm
        rw [if_neg hnc, if_neg hnc]
        unfold writeSeedFlat
        rw [if_neg (by omega), if_neg (by omega), if_neg (by omega), if_neg (by omega)]
        exact ⟨rfl, rfl⟩

/-- The number of on cells after seeding a zeroed buffer equals the number
of components. -/
theorem seeded_on_count (w h : ℕ) (rand : ℕ → ℚ) (hr : ∀ k, 0 ≤ rand k ∧ rand k < 1)
    (comps : List (List ℕ))
    (hne : ∀ c ∈ comps, c ≠ [])
    (hdisj : List.Pairwise (fun c1 c2 => ∀ j ∈ c1, j ∉ c2) comps)
    (hbound : ∀ c ∈ comps, ∀ j ∈ c, j < w * h) :
    ((Finset.range (w * h)).filter
        (fun i => (applySeedsFlat rand 0 comps (fun _ => 0)) (i * 2) = 1)).card
      = comps.length := by
  have hval : ∀ i, (applySeedsFlat rand 0 comps (fun _ => 0)) (i * 2)
      = (if i ∈ seedsList rand 0 comps then 1 else 0) :=
    fun i => (applySeedsFlat_eval rand comps 0 (fun _ => 0) i).1
  have hset : (Finset.range (w * h)).filter
      (fun i => (applySeedsFlat rand 0 comps (fun _ => 0)) (i * 2) = 1)
      = (seedsList rand 0 comps).toFinset := by
    ext i
    rw [Finset.mem_filter, List.mem_toFinset, hval i, Finset.mem_range]
    constructor
    · rintro ⟨_, hv⟩
      by_cases hm : i ∈ seedsList rand 0 comps
      · exact hm
      · rw [if_neg hm] at hv
        omega
    · intro hm
      refine ⟨?_, by rw [if_pos hm]⟩
      obtain ⟨c, hc, hic⟩ := seedsList_mem rand hr comps 0 hne i hm
      exact hbound c hc i hic
  rw [hset, List.toFinset_card_of_nodup (seedsList_nodup rand hr comps 0 hne hdisj),
    seedsList_length]

/-- Claim C6 (amended): immediately after setMaskFromImage, in the canvas
backend the number of on cells equals the number of 4-connected components
of the cells with mask intensity > 128, while in the WebGPU backend — whose
mask is binarized at threshold 64 before seeding — it equals the number of
4-connected components of the cells with binarized mask value 1 (sampled
intensity > 64); in both backends every on cell has age 0. -/
theorem claim_C6 (w h iw ih : ℕ) (img : Buffer) (rand : ℕ → ℚ)
    (hr : ∀ k, 0 ≤ rand k ∧ rand k < 1) :
    ((Finset.range (w * h)).filter
        (fun i => ((CanvasGrowthSimulation.init w h).setMaskFromImage rand img iw ih).getCurrentState (i * 2) = 1)).card
      = componentCount w h
          (fun idx => decide (128 < ((CanvasGrowthSimulation.init w h).setMaskFromImage rand img iw ih).maskData idx)) ∧
    (∀ i, ((CanvasGrowthSimulation.init w h).setMaskFromImage rand img iw ih).getCurrentState (i * 2 + 1) = 0) ∧
    ((Finset.range (w * h)).filter
        (fun i => ((((GrowthSimulation.init w h).setMaskFromImage rand img iw ih).getCurrentState i)).1 = 1)).card
      = componentCount w h
          (fun idx => decide (((GrowthSimulation.init w h).setMaskFromImage rand img iw ih).maskData idx = 1)) ∧
    (∀ i, ((((GrowthSimulation.init w h).setMaskFromImage rand img iw ih).getCurrentState i)).2 = 0) := by
  have hsC : ((CanvasGrowthSimulation.init w h).setMaskFromImage rand img iw ih).getCurrentState
      = applySeedsFlat rand 0
          ((placeSeedsScan w h
            (fun idx => decide (128 <
              (if idx < w * h then sampleIntensity img iw ih w h (idx % w) (idx / w) else 0)))
            (fun idx => !(decide
              ((if idx < w * h then sampleIntensity img iw ih w h (idx % w) (idx / w) else 0) ≤ 128)))).2)
          (fun _ => 0) := rfl
  have hmC : ((CanvasGrowthSimulation.init w h).setMaskFromImage rand img iw ih).maskData
      = fun idx => if idx < w * h then sampleIntensity img iw ih w h (idx % w) (idx / w) else 0 :=
    rfl
  have hfc : (fun idx => !(decide
        ((if idx < w * h then sampleIntensity img iw ih w h (idx % w) (idx / w) else 0) ≤ 128)))
      = (fun idx => decide (128 <
          (if idx < w * h then sampleIntensity img iw ih w h (idx % w) (idx / w) else (0 : ℕ)))) := by
    funext idx
    by_cases hle : (if idx < w * h then sampleIntensity img iw ih w h (idx % w) (idx / w) else (0 : ℕ)) ≤ 128
    · simp [hle, Nat.not_lt.mpr hle]
    · simp [hle, Nat.lt_of_not_le hle]
  have hsG : ((GrowthSimulation.init w h).setMaskFromImage rand img iw ih).getCurrentState
      = applySeedsVec rand 0
          ((placeSeedsScan w h
            (fun idx => decide ((if idx < w * h then
              (if 64 < sampleIntensity img iw ih w h (idx % w) (idx / w) then 1 else 0)
              else (0 : ℕ)) = 1))
            (fun idx => !(decide ((if idx < w * h then
              (if 64 < sampleIntensity img iw ih w h (idx % w) (idx / w) then 1 else 0)
              else (0 : ℕ)) = 0)))).2)
          (fun _ => (0, 0)) := rfl
  have hmG : ((GrowthSimulation.init w h).setMaskFromImage rand img iw ih).maskData
      = fun idx => if idx < w * h then
          (if 64 < sampleIntensity img iw ih w h (idx % w) (idx / w) then 1 else 0)
          else 0 := rfl
  have hfg : (fun idx => !(decide ((if idx < w * h then
        (if 64 < sampleIntensity img iw ih w h (idx % w) (idx / w) then 1 else 0)
        else (0 : ℕ)) = 0)))
      = (fun idx => decide ((if idx < w * h then
          (if 64 < sampleIntensity img iw ih w h (idx % w) (idx / w) then 1 else 0)
          else (0 : ℕ)) = 1)) := by
    funext idx
    by_cases hlt : idx < w * h
    · by_cases h64 : 64 < sampleIntensity img iw ih w h (idx % w) (idx / w)
      · simp [hlt, h64]
      · simp [hlt, h64]
    · simp [hlt]
  -- canvas part
  obtain ⟨hwfC, hdisjC, hcoverC⟩ := placeSeedsScan_spec w h
    (fun idx => decide (128 <
      (if idx < w * h then sampleIntensity img iw ih w h (idx % w) (idx / w) else 0)))
  have hneC : ∀ c ∈ (placeSeedsScan w h
      (fun idx => decide (128 <
        (if idx < w * h then sampleIntensity img iw ih w h (idx % w) (idx / w) else 0)))
      (fun idx => decide (128 <
        (if idx < w * h then sampleIntensity img iw ih w h (idx % w) (idx / w) else 0)))).2,
      c ≠ [] := fun c hc => (hwfC c hc).1
  have hboundC : ∀ c ∈ (placeSeedsScan w h
      (fun idx => decide (128 <
        (if idx < w * h then sampleIntensity img iw ih w h (idx % w) (idx / w) else 0)))
      (fun idx => decide (128 <
        (if idx < w * h then sampleIntensity img iw ih w h (idx % w) (idx / w) else 0)))).2,
      ∀ j ∈ c, j < w * h := by
    intro c hc j hj
    obtain ⟨_, _, root, hrlt, hrel, hcls⟩ := hwfC c hc
    exact (reach_elig w h _ ((hcls j).mp hj) hrel hrlt).2
  refine ⟨?_, ?_, ?_, ?_⟩
  · rw [hmC, hsC, hfc]
    rw [seeded_on_count w h rand hr _ hneC hdisjC hboundC]
    exact comps_length_eq_componentCount w h _ _ hwfC hdisjC hcoverC
  · intro i
    rw [hsC, hfc]
    have := (applySeedsFlat_eval rand
      ((placeSeedsScan w h
        (fun idx => decide (128 <
          (if idx < w * h then sampleIntensity img iw ih w h (idx % w) (idx / w) else 0)))
        (fun idx => decide (128 <
          (if idx < w * h then sampleIntensity img iw ih w h (idx % w) (idx / w) else 0)))).2)
      0 (fun _ => 0) i).2
    rw [this]
    split <;> rfl
  · -- gpu part
    obtain ⟨hwfG, hdisjG, hcoverG⟩ := placeSeedsScan_spec w h
      (fun idx => decide ((if idx < w * h then
        (if 64 < sampleIntensity img iw ih w h (idx % w) (idx / w) then 1 else 0)
        else (0 : ℕ)) = 1))
    have hneG : ∀ c ∈ (placeSeedsScan w h
        (fun idx => decide ((if idx < w * h then
          (if 64 < sampleIntensity img iw ih w h (idx % w) (idx / w) then 1 else 0)
          else (0 : ℕ)) = 1))
        (fun idx => decide ((if idx < w * h then
          (if 64 < sampleIntensity img iw ih w h (idx % w) (idx / w) then 1 else 0)
          else (0 : ℕ)) = 1))).2, c ≠ [] := fun c hc => (hwfG c hc).1
    have hboundG : ∀ c ∈ (placeSeedsScan w h
        (fun idx => decide ((if idx < w * h then
          (if 64 < sampleIntensity img iw ih w h (idx % w) (idx / w) then 1 else 0)
          else (0 : ℕ)) = 1))
        (fun idx => decide ((if idx < w * h then
          (if 64 < sampleIntensity img iw ih w h (idx % w) (idx / w) then 1 else 0)
          else (0 : ℕ)) = 1))).2, ∀ j ∈ c, j < w * h := by
      intro c hc j hj
      obtain ⟨_, _, root, hrlt, hrel, hcls⟩ := hwfG c hc
      exact (reach_elig w h _ ((hcls j).mp hj) hrel hrlt).2
    rw [hmG, hsG, hfg]
    have hcorr : ∀ i, ((applySeedsVec rand 0
        ((placeSeedsScan w h
          (fun idx => decide ((if idx < w * h then
            (if 64 < sampleIntensity img iw ih w h (idx % w) (idx / w) then 1 else 0)
            else (0 : ℕ)) = 1))
          (fun idx => decide ((if idx < w * h then
            (if 64 < sampleIntensity img iw ih w h (idx % w) (idx / w) then 1 else 0)
            else (0 : ℕ)) = 1))).2)
        (fun _ => (0, 0))) i).1
        = (applySeedsFlat rand 0
            ((placeSeedsScan w h
              (fun idx => decide ((if idx < w * h then
                (if 64 < sampleIntensity img iw ih w h (idx % w) (idx / w) then 1 else 0)
                else (0 : ℕ)) = 1))
              (fun idx => decide ((if idx < w * h then
                (if 64 < sampleIntensity img iw ih w h (idx % w) (idx / w) then 1 else 0)
                else (0 : ℕ)) = 1))).2)
            (fun _ => 0)) (i * 2) := by
      intro i
      have := applySeeds_corr rand
        ((placeSeedsScan w h
          (fun idx => decide ((if idx < w * h then
            (if 64 < sampleIntensity img iw ih w h (idx % w) (idx / w) then 1 else 0)
            else (0 : ℕ)) = 1))
          (fun idx => decide ((if idx < w * h then
            (if 64 < sampleIntensity img iw ih w h (idx % w) (idx / w) then 1 else 0)
            else (0 : ℕ)) = 1))).2)
        0 (fun _ => 0) (fun _ => (0, 0)) (fun _ => rfl) i
      rw [← this]
    have hfe : (Finset.range (w * h)).filter
        (fun i => ((applySeedsVec rand 0
          ((placeSeedsScan w h
            (fun idx => decide ((if idx < w * h then
              (if 64 < sampleIntensity img iw ih w h (idx % w) (idx / w) then 1 else 0)
              else (0 : ℕ)) = 1))
            (fun idx => decide ((if idx < w * h then
              (if 64 < sampleIntensity img iw ih w h (idx % w) (idx / w) then 1 else 0)
              else (0 : ℕ)) = 1))).2)
          (fun _ => (0, 0))) i).1 = 1)
        = (Finset.range (w * h)).filter
          (fun i => (applySeedsFlat rand 0
            ((placeSeedsScan w h
              (fun idx => decide ((if idx < w * h then
                (if 64 < sampleIntensity img iw ih w h (idx % w) (idx / w) then 1 else 0)
                else (0 : ℕ)) = 1))
              (fun idx => decide ((if idx < w * h then
                (if 64 < sampleIntensity img iw ih w h (idx % w) (idx / w) then 1 else 0)
                else (0 : ℕ)) = 1))).2)
            (fun _ => 0)) (i * 2) = 1) := by
      apply Finset.filter_congr
      intro i _
      rw [hcorr i]
    rw [hfe, seeded_on_count w h rand hr _ hneG hdisjG hboundG]
    exact comps_length_eq_componentCount w h _ _ hwfG hdisjG hcoverG
  · intro i
    rw [hsG, hfg]
    have hpair := applySeeds_corr rand
      ((placeSeedsScan w h
        (fun idx => decide ((if idx < w * h then
          (if 64 < sampleIntensity img iw ih w h (idx % w) (idx / w) then 1 else 0)
          else (0 : ℕ)) = 1))
        (fun idx => decide ((if idx < w * h then
          (if 64 < sampleIntensity img iw ih w h (idx % w) (idx / w) then 1 else 0)
          else (0 : ℕ)) = 1))).2)
      0 (fun _ => 0) (fun _ => (0, 0)) (fun _ => rfl) i
    have hsnd : ((applySeedsVec rand 0
        ((placeSeedsScan w h
          (fun idx => decide ((if idx < w * h then
            (if 64 < sampleIntensity img iw ih w h (idx % w) (idx / w) then 1 else 0)
            else (0 : ℕ)) = 1))
          (fun idx => decide ((if idx < w * h then
            (if 64 < sampleIntensity img iw ih w h (idx % w) (idx / w) then 1 else 0)
            else (0 : ℕ)) = 1))).2)
        (fun _ => (0, 0))) i).2
        = (applySeedsFlat rand 0
            ((placeSeedsScan w h
              (fun idx => decide ((if idx < w * h then
                (if 64 < sampleIntensity img iw ih w h (idx % w) (idx / w) then 1 else 0)
                else (0 : ℕ)) = 1))
              (fun idx => decide ((if idx < w * h then
                (if 64 < sampleIntensity img iw ih w h (idx % w) (idx / w) then 1 else 0)
                else (0 : ℕ)) = 1))).2)
            (fun _ => 0)) (i * 2 + 1) := by
      rw [← hpair]
    rw [hsnd]
    have := (applySeedsFlat_eval rand
      ((placeSeedsScan w h
        (fun idx => decide ((if idx < w * h then
          (if 64 < sampleIntensity img iw ih w h (idx % w) (idx / w) then 1 else 0)
          else (0 : ℕ)) = 1))
        (fun idx => decide ((if idx < w * h then
          (if 64 < sampleIntensity img iw ih w h (idx % w) (idx / w) then 1 else 0)
          else (0 : ℕ)) = 1))).2)
      0 (fun _ => 0) i).2
    rw [this]
    split <;> rfl

/-- Claim C6 — counterexample.  On a 1×1 grid whose single pixel has
intensity 100 there is no 4-connected component of cells with intensity
> 128, yet the WebGPU backend — which binarizes the mask at threshold 64
before seeding — turns its single cell on: the number of on cells (1) does
not equal the number of components of cells with intensity > 128 (0),
refuting the claim for the WebGPU backend. -/
theorem claim_C6_counterexample :
    ((Finset.range (1 * 1)).filter
        (fun i => ((((GrowthSimulation.init 1 1).setMaskFromImage (fun _ => 0) (fun _ => 100) 1 1).getCurrentState i)).1 = 1)).card = 1 ∧
    componentCount 1 1
      (fun idx => decide (128 < sampleIntensity (fun _ => 100) 1 1 1 1 (idx % 1) (idx / 1))) = 0 := by
  have hg : ((GrowthSimulation.init 1 1).setMaskFromImage
      (fun _ => 0) (fun _ => 100) 1 1).getCurrentState 0 = (1, 0) := by
    show applySeedsVec (fun _ => 0) 0
        ((placeSeedsScan 1 1
          (fun idx => decide ((if idx < 1 * 1 then
            (if 64 < sampleIntensity (fun _ => 100) 1 1 1 1 (idx % 1) (idx / 1) then 1 else 0)
            else (0 : ℕ)) = 1))
          (fun idx => !(decide ((if idx < 1 * 1 then
            (if 64 < sampleIntensity (fun _ => 100) 1 1 1 1 (idx % 1) (idx / 1) then 1 else 0)
            else (0 : ℕ)) = 0)))).2)
        (fun _ => (0, 0)) 0 = (1, 0)
    have hff : floodFillLoop 1 1 (fun idx => decide (idx = 0))
        [((0 : ℤ), (0 : ℤ))] ∅ [] = ({0}, [0]) := by
      rw [floodFillLoop]
      norm_num [cellIdx]
      rw [floodFillLoop]
      norm_num
      rw [floodFillLoop]
      norm_num
      rw [floodFillLoop]
      norm_num
      rw [floodFillLoop]
      norm_num
      rw [floodFillLoop]
    have hscan : placeSeedsScan 1 1
        (fun idx => decide ((if idx < 1 * 1 then
          (if 64 < sampleIntensity (fun _ => 100) 1 1 1 1 (idx % 1) (idx / 1) then 1 else 0)
          else (0 : ℕ)) = 1))
        (fun idx => !(decide ((if idx < 1 * 1 then
          (if 64 < sampleIntensity (fun _ => 100) 1 1 1 1 (idx % 1) (idx / 1) then 1 else 0)
          else (0 : ℕ)) = 0))) = ({0}, [[0]]) := by
      unfold placeSeedsScan
      have hff' : floodFillLoop 1 1 (fun idx => decide (idx = 0)) [(0 : ℤ × ℤ)] ∅ []
          = ({0}, [0]) := by
        rw [show ((0 : ℤ × ℤ)) = ((0 : ℤ), (0 : ℤ)) from rfl]
        exact hff
      rw [show List.range 1 = [0] from rfl]
      simp only [List.foldl_cons, List.foldl_nil]
      norm_num [scanCell, sampleIntensity, hff, hff']
    rw [hscan]
    norm_num [applySeedsVec, writeSeedVec, randomIdx]
  constructor
  · rw [show (1 : ℕ) * 1 = 1 from rfl, Finset.range_one, Finset.filter_singleton, hg]
    norm_num
  · decide

/-- Claim C6 — witness: on a 1×1 grid whose single pixel has intensity 255
(so the single cell forms one component under both thresholds), with a
random stream that is constantly 0, the amended seed-count statement holds
for both backends. -/
theorem claim_C6_witness :
    (∀ _ : ℕ, (0 : ℚ) ≤ 0 ∧ (0 : ℚ) < 1) ∧
    (((Finset.range (1 * 1)).filter
        (fun i => ((CanvasGrowthSimulation.init 1 1).setMaskFromImage (fun _ => 0) (fun _ => 255) 1 1).getCurrentState (i * 2) = 1)).card
      = componentCount 1 1
          (fun idx => decide (128 < ((CanvasGrowthSimulation.init 1 1).setMaskFromImage (fun _ => 0) (fun _ => 255) 1 1).maskData idx)) ∧
    (∀ i, ((CanvasGrowthSimulation.init 1 1).setMaskFromImage (fun _ => 0) (fun _ => 255) 1 1).getCurrentState (i * 2 + 1) = 0) ∧
    ((Finset.range (1 * 1)).filter
        (fun i => ((((GrowthSimulation.init 1 1).setMaskFromImage (fun _ => 0) (fun _ => 255) 1 1).getCurrentState i)).1 = 1)).card
      = componentCount 1 1
          (fun idx => decide (((GrowthSimulation.init 1 1).setMaskFromImage (fun _ => 0) (fun _ => 255) 1 1).maskData idx = 1)) ∧
    (∀ i, ((((GrowthSimulation.init 1 1).setMaskFromImage (fun _ => 0) (fun _ => 255) 1 1).getCurrentState i)).2 = 0)) :=
  ⟨fun _ => ⟨by decide, by decide⟩,
    claim_C6 1 1 1 1 (fun _ => 255) (fun _ => 0) (fun _ => ⟨le_refl 0, zero_lt_one⟩)⟩

end Website
